import Mathlib

/-!
# Verification of the restic Total Commander WFX plugin core

A shallow embedding, in Lean 4, of the cache / resolver core of the
`restic-wfx` plugin (sources: `src/ls_cache.c`, `src/wfx_interface.c`,
`src/json_parse.c`, `src/restic_process.c`), together with theorems about
the behaviour of the embedded functions.

Modelling conventions:
* SQLite tables are modelled as association lists keyed by the table's
  primary key; `INSERT OR REPLACE` is an insert-or-replace (`upsert`) on
  that association list, and a `SELECT` without `ORDER BY` returns the rows
  in insertion order (the order is never relied upon: set-level statements
  are phrased with `List.Perm`).
* Machine integers (`DWORD`, `ULONGLONG`, counts) are modelled as `Nat`;
  the one place where unsigned wraparound matters (`GetTickCount64`
  subtraction in the snapshot-cache TTL check) uses an explicit mod-`2^64`
  subtraction.
* C strings are Lean `String`s (byte-level `strcmp`/`strncmp` on the
  ASCII data handled here agrees with `String` ordering / prefix tests).
* `FILETIME` values never participate in any claim other than being copied
  around, so a directory entry carries the ISO-8601 text it was parsed
  from instead of the two-`DWORD` Windows encoding.
-/

namespace ResticWfx

/-! ## Basic data -/

/-- `DirEntry` from `wfx_interface.h`: one row of a directory listing.
The `FILETIME lastWriteTime` field is represented by the ISO-8601 string it
was parsed from (see module conventions). -/
structure DirEntry where
  name : String
  isDirectory : Bool
  fileSizeLow : Nat
  fileSizeHigh : Nat
  mtime : String
deriving DecidableEq, Repr

/-- `ResticLsEntry` from `json_parse.h`: one line of `restic ls --json`. -/
structure ResticLsEntry where
  name : String
  path : String
  type : String
  sizeLow : Nat
  sizeHigh : Nat
  mtime : String
deriving DecidableEq, Repr

/-- `ResticSnapshot` from `json_parse.h`. -/
structure ResticSnapshot where
  id : String
  shortId : String
  time : String
  hostname : String
  paths : List String
deriving DecidableEq, Repr

/-! ## Association-list primitives (model of a primary-keyed SQLite table) -/

/-- `INSERT OR REPLACE`: replace the row with primary key `k` in place, or
append a fresh row at the end. -/
def upsert {κ α : Type} [DecidableEq κ] (k : κ) (v : α) : List (κ × α) → List (κ × α)
  | [] => [(k, v)]
  | (k', v') :: t => if k' = k then (k, v) :: t else (k', v') :: upsert k v t

/-- `SELECT value WHERE key = k LIMIT 1` on a primary-keyed table. -/
def alookup {κ α : Type} [DecidableEq κ] (k : κ) : List (κ × α) → Option α
  | [] => none
  | (k', v) :: t => if k' = k then some v else alookup k t

theorem alookup_upsert_self {κ α : Type} [DecidableEq κ] (k : κ) (v : α)
    (l : List (κ × α)) : alookup k (upsert k v l) = some v := by
  induction l with
  | nil => simp [upsert, alookup]
  | cons hd t ih =>
    obtain ⟨k', v'⟩ := hd
    by_cases h : k' = k
    · simp [upsert, h, alookup]
    · simp [upsert, h, alookup, ih]

theorem alookup_upsert_ne {κ α : Type} [DecidableEq κ] {k k' : κ} (v : α)
    (l : List (κ × α)) (h : k' ≠ k) :
    alookup k' (upsert k v l) = alookup k' l := by
  induction l with
  | nil => simp [upsert, alookup, Ne.symm h]
  | cons hd t ih =>
    obtain ⟨k₀, v₀⟩ := hd
    by_cases h0 : k₀ = k
    · subst h0
      simp [upsert, alookup, Ne.symm h]
    · simp [upsert, h0, alookup, ih]

/-- If the key is absent, `upsert` appends the new row at the end. -/
theorem upsert_eq_append {κ α : Type} [DecidableEq κ] {k : κ} {v : α}
    {l : List (κ × α)} (h : alookup k l = none) :
    upsert k v l = l ++ [(k, v)] := by
  induction l with
  | nil => simp [upsert]
  | cons hd t ih =>
    obtain ⟨k₀, v₀⟩ := hd
    by_cases h0 : k₀ = k
    · simp [alookup, h0] at h
    · simp [alookup, h0] at h
      simp [upsert, h0, ih h]

theorem alookup_append {κ α : Type} [DecidableEq κ] (k : κ)
    (l₁ l₂ : List (κ × α)) :
    alookup k (l₁ ++ l₂) = (alookup k l₁).orElse (fun _ => alookup k l₂) := by
  induction l₁ with
  | nil => simp [alookup]
  | cons hd t ih =>
    obtain ⟨k₀, v₀⟩ := hd
    by_cases h0 : k₀ = k <;> simp [alookup, h0, ih]

/-! ## The persistent directory cache (`ls_cache.c`)

Per repository, the SQLite schema has two tables (`CreateSchema`):
`cached_dirs` with primary key `(short_id, path)` holding `entry_count`
(the *sentinel*), and `dir_entries` with primary key
`(short_id, path, name)` holding one child row.  The model keys both with
the repository name prepended, mirroring the one-database-per-repo layout
of `GetConnection`. -/

/-- Sentinel key: (repoName, shortId, path). -/
abbrev DirKey := String × String × String

/-- Child-row key: (repoName, shortId, path, childName). -/
abbrev RowKey := String × String × String × String

/-- The persistent cache contents (both SQLite tables of one process). -/
structure DbState where
  cached_dirs : List (DirKey × Nat)
  dir_entries : List (RowKey × DirEntry)
deriving DecidableEq, Repr

def emptyDb : DbState := ⟨[], []⟩

/-- The `WHERE short_id=?1 AND path=?2` condition of the two lookup
statements, on a row key (the repo component selects the database file). -/
abbrev rowKeyMatches (repo shortId path : String) (k : RowKey) : Prop :=
  k.1 = repo ∧ k.2.1 = shortId ∧ k.2.2.1 = path

/-- The child rows stored under one `(repo, shortId, path)` key, in
insertion order (the model of
`SELECT ... FROM dir_entries WHERE short_id=?1 AND path=?2`). -/
def rowsAt (db : DbState) (repo shortId path : String) : List DirEntry :=
  (db.dir_entries.filter fun r => decide (rowKeyMatches repo shortId path r.1)).map (·.2)

/-- The sentinel stored under one key
(`SELECT entry_count FROM cached_dirs WHERE short_id=?1 AND path=?2`). -/
def sentinelAt (db : DbState) (repo shortId path : String) : Option Nat :=
  alookup (repo, shortId, path) db.cached_dirs

/-- `LsCache_Store` (`ls_cache.c` lines 277–326), success path: inside one
transaction, `INSERT OR REPLACE` every child row, then `INSERT OR REPLACE`
the sentinel with `entry_count = count`, then `COMMIT`.  Rows of the old
set that are not among the new names are *not* deleted. -/
def LsCache_Store (db : DbState) (repo shortId path : String)
    (entries : List DirEntry) : DbState :=
  { dir_entries :=
      entries.foldl (fun rows e => upsert (repo, shortId, path, e.name) e rows)
        db.dir_entries,
    cached_dirs := upsert (repo, shortId, path) entries.length db.cached_dirs }

/-- `LsCache_Store` with an explicit failure oracle for the transaction:
`failAt = some i` with `i < entries.length` means the `sqlite3_step` for
child row `i` fails, `i = entries.length` means the sentinel insert fails;
either failure triggers `ROLLBACK`, which restores the pre-transaction
state.  Readers only observe committed states (SQLite transaction
isolation), so the observable result is the original state on failure and
the fully-written state on success. -/
def LsCache_StoreTxn (db : DbState) (repo shortId path : String)
    (entries : List DirEntry) (failAt : Option Nat) : DbState :=
  match failAt with
  | some i => if i ≤ entries.length then db else LsCache_Store db repo shortId path entries
  | none => LsCache_Store db repo shortId path entries

/-- `LsCache_Lookup` (`ls_cache.c` lines 209–275).  Returns the C
function's two observables: the returned pointer (`none` = `NULL`) and
`*outCount`.  Faithful to the source: a missing sentinel returns
`(none, 0)`; a sentinel with `entry_count == 0` **also** returns
`(none, 0)` (line 236–239); a positive sentinel fetches at most
`entry_count` child rows, and returns `(none, 0)` again if no row was
found (stale sentinel, lines 265–268). -/
def LsCache_Lookup (db : DbState) (repo shortId path : String) :
    Option (List DirEntry) × Nat :=
  match sentinelAt db repo shortId path with
  | none => (none, 0)
  | some n =>
    if n = 0 then (none, 0)
    else
      let got := (rowsAt db repo shortId path).take n
      if got.isEmpty then (none, 0) else (some got, got.length)

/-! ### Lemmas about the store/lookup pair -/

theorem alookup_mem {κ α : Type} [DecidableEq κ] {k : κ} {v : α}
    {l : List (κ × α)} (h : alookup k l = some v) : (k, v) ∈ l := by
  induction l with
  | nil => simp [alookup] at h
  | cons hd t ih =>
    obtain ⟨k₀, v₀⟩ := hd
    by_cases h0 : k₀ = k
    · subst h0
      simp [alookup] at h
      simp [h]
    · simp [alookup, h0] at h
      exact List.mem_cons_of_mem _ (ih h)

/-- `upsert` with a key rejected by the filter predicate does not change
the filtered rows. -/
theorem filter_upsert_not {κ α : Type} [DecidableEq κ] {P : κ → Prop}
    [DecidablePred P] (k : κ) (v : α) (l : List (κ × α)) (h : ¬ P k) :
    (upsert k v l).filter (fun r => decide (P r.1))
      = l.filter (fun r => decide (P r.1)) := by
  induction l with
  | nil => simp [upsert, h]
  | cons hd t ih =>
    obtain ⟨k₀, v₀⟩ := hd
    by_cases h0 : k₀ = k
    · subst h0
      simp [upsert, List.filter, h]
    · simp only [upsert, if_neg h0, List.filter]
      rw [ih]

/-- The fold of child-row upserts performed by `LsCache_Store`. -/
def storeRows (repo shortId path : String) (entries : List DirEntry)
    (rows : List (RowKey × DirEntry)) : List (RowKey × DirEntry) :=
  entries.foldl (fun rows e => upsert (repo, shortId, path, e.name) e rows) rows

theorem LsCache_Store_dir_entries (db : DbState) (repo shortId path : String)
    (entries : List DirEntry) :
    (LsCache_Store db repo shortId path entries).dir_entries
      = storeRows repo shortId path entries db.dir_entries := rfl

theorem LsCache_Store_cached_dirs (db : DbState) (repo shortId path : String)
    (entries : List DirEntry) :
    (LsCache_Store db repo shortId path entries).cached_dirs
      = upsert (repo, shortId, path) entries.length db.cached_dirs := rfl

/-- Row lookups at keys untouched by the store fold are preserved. -/
theorem alookup_storeRows_ne (repo shortId path : String)
    (entries : List DirEntry) (rows : List (RowKey × DirEntry)) (k : RowKey)
    (h : ∀ e ∈ entries, (repo, shortId, path, e.name) ≠ k) :
    alookup k (storeRows repo shortId path entries rows) = alookup k rows := by
  induction entries generalizing rows with
  | nil => rfl
  | cons e t ih =>
    have : alookup k (storeRows repo shortId path t
        (upsert (repo, shortId, path, e.name) e rows)) =
        alookup k (upsert (repo, shortId, path, e.name) e rows) :=
      ih _ (fun e' he' => h e' (List.mem_cons_of_mem _ he'))
    calc alookup k (storeRows repo shortId path (e :: t) rows)
        = alookup k (upsert (repo, shortId, path, e.name) e rows) := this
      _ = alookup k rows :=
          alookup_upsert_ne _ _ (fun hk => h e (List.mem_cons_self _ _) hk.symm)

/-- After a successful store whose entry names are distinct, every stored
entry is present as a child row under its own key. -/
theorem alookup_storeRows_self (repo shortId path : String)
    {entries : List DirEntry} {e : DirEntry}
    (rows : List (RowKey × DirEntry))
    (hnd : (entries.map (·.name)).Nodup) (he : e ∈ entries) :
    alookup (repo, shortId, path, e.name)
      (storeRows repo shortId path entries rows) = some e := by
  induction entries generalizing rows with
  | nil => simp at he
  | cons e₀ t ih =>
    rcases List.mem_cons.1 he with rfl | het
    · have hnames : ∀ e' ∈ t, e'.name ≠ e.name := by
        intro e' he' hname
        refine (List.nodup_cons.1 hnd).1 ?_
        have hm : e'.name ∈ t.map (·.name) := List.mem_map_of_mem (·.name) he'
        rw [hname] at hm
        exact hm
      have : alookup (repo, shortId, path, e.name)
          (storeRows repo shortId path t
            (upsert (repo, shortId, path, e.name) e rows)) =
          alookup (repo, shortId, path, e.name)
            (upsert (repo, shortId, path, e.name) e rows) := by
        refine alookup_storeRows_ne _ _ _ _ _ _ ?_
        intro e' he' hk
        exact hnames e' he' (by
          have := congrArg (fun q : RowKey => q.2.2.2) hk
          simpa using this)
      calc alookup (repo, shortId, path, e.name)
            (storeRows repo shortId path (e :: t) rows)
          = alookup (repo, shortId, path, e.name)
              (upsert (repo, shortId, path, e.name) e rows) := this
        _ = some e := alookup_upsert_self _ _ _
    · exact ih _ (List.nodup_cons.1 hnd).2 het

/-- If none of the stored keys is present, the fold appends the new rows
at the end, in order. -/
theorem storeRows_eq_append (repo shortId path : String)
    (entries : List DirEntry) (rows : List (RowKey × DirEntry))
    (hnone : ∀ e ∈ entries, alookup (repo, shortId, path, e.name) rows = none)
    (hnd : (entries.map (·.name)).Nodup) :
    storeRows repo shortId path entries rows
      = rows ++ entries.map (fun e => ((repo, shortId, path, e.name), e)) := by
  induction entries generalizing rows with
  | nil => simp [storeRows]
  | cons e t ih =>
    have h1 : upsert (repo, shortId, path, e.name) e rows
        = rows ++ [((repo, shortId, path, e.name), e)] :=
      upsert_eq_append (hnone e (List.mem_cons_self _ _))
    have hnames : ∀ e' ∈ t, e'.name ≠ e.name := by
      intro e' he' hname
      refine (List.nodup_cons.1 hnd).1 ?_
      have hm : e'.name ∈ t.map (·.name) := List.mem_map_of_mem (·.name) he'
      rw [hname] at hm
      exact hm
    have h2 : storeRows repo shortId path t
        (rows ++ [((repo, shortId, path, e.name), e)])
        = (rows ++ [((repo, shortId, path, e.name), e)])
            ++ t.map (fun e => ((repo, shortId, path, e.name), e)) := by
      refine ih _ ?_ (List.nodup_cons.1 hnd).2
      intro e' he'
      rw [alookup_append]
      have hr : alookup (repo, shortId, path, e'.name) rows = none :=
        hnone e' (List.mem_cons_of_mem _ he')
      have hs : alookup (repo, shortId, path, e'.name)
          [((repo, shortId, path, e.name), e)] = none := by
        simp [alookup, Ne.symm (hnames e' he')]
      simp [hr, hs]
    calc storeRows repo shortId path (e :: t) rows
        = storeRows repo shortId path t
            (upsert (repo, shortId, path, e.name) e rows) := rfl
      _ = (rows ++ [((repo, shortId, path, e.name), e)])
            ++ t.map (fun e => ((repo, shortId, path, e.name), e)) := by
          rw [h1] at *; exact h2
      _ = rows ++ (e :: t).map (fun e => ((repo, shortId, path, e.name), e)) := by
          simp

/-- The store fold leaves every filtered view untouched whose predicate
rejects all of the written keys. -/
theorem filter_storeRows_not (repo shortId path : String)
    (es : List DirEntry) (rows : List (RowKey × DirEntry))
    {P : RowKey → Prop} [DecidablePred P]
    (h : ∀ n : String, ¬ P (repo, shortId, path, n)) :
    (storeRows repo shortId path es rows).filter (fun r => decide (P r.1))
      = rows.filter (fun r => decide (P r.1)) := by
  induction es generalizing rows with
  | nil => rfl
  | cons e t ih =>
    calc (storeRows repo shortId path (e :: t) rows).filter
            (fun r => decide (P r.1))
        = (upsert (repo, shortId, path, e.name) e rows).filter
            (fun r => decide (P r.1)) := ih _
      _ = rows.filter (fun r => decide (P r.1)) :=
          filter_upsert_not _ _ _ (h e.name)

/-- Storing under one key does not change the rows seen under a different
`(repo, shortId, path)` key. -/
theorem rowsAt_store_ne (db : DbState) {repo shortId path : String}
    (repo' shortId' path' : String) (es : List DirEntry)
    (h : ¬ (repo = repo' ∧ shortId = shortId' ∧ path = path')) :
    rowsAt (LsCache_Store db repo shortId path es) repo' shortId' path'
      = rowsAt db repo' shortId' path' := by
  unfold rowsAt
  rw [LsCache_Store_dir_entries]
  rw [filter_storeRows_not]
  intro n hn
  exact h ⟨hn.1, hn.2.1, hn.2.2⟩

theorem sentinelAt_store_self (db : DbState) (repo shortId path : String)
    (es : List DirEntry) :
    sentinelAt (LsCache_Store db repo shortId path es) repo shortId path
      = some es.length :=
  alookup_upsert_self _ _ _

theorem sentinelAt_store_ne (db : DbState) {repo shortId path : String}
    (repo' shortId' path' : String) (es : List DirEntry)
    (h : (repo', shortId', path') ≠ (repo, shortId, path)) :
    sentinelAt (LsCache_Store db repo shortId path es) repo' shortId' path'
      = sentinelAt db repo' shortId' path' :=
  alookup_upsert_ne _ _ h

/-- A key whose filtered view is empty has no row for any child name. -/
theorem alookup_eq_none_of_rowsAt_nil {db : DbState}
    {repo shortId path : String} (n : String)
    (hempty : rowsAt db repo shortId path = []) :
    alookup (repo, shortId, path, n) db.dir_entries = none := by
  cases halo : alookup (repo, shortId, path, n) db.dir_entries with
  | none => rfl
  | some v =>
    exfalso
    have hmem := alookup_mem halo
    have hfil : ((repo, shortId, path, n), v) ∈
        db.dir_entries.filter (fun r => decide (rowKeyMatches repo shortId path r.1)) :=
      List.mem_filter.2 ⟨hmem, by simp⟩
    have : rowsAt db repo shortId path ≠ [] := by
      unfold rowsAt
      intro hmapnil
      rw [List.map_eq_nil_iff] at hmapnil
      rw [hmapnil] at hfil
      exact (List.not_mem_nil _) hfil
    exact this hempty

/-- Storing into a key with no pre-existing rows, with pairwise-distinct
entry names, makes the rows under that key exactly the stored list. -/
theorem rowsAt_store_self (db : DbState) (repo shortId path : String)
    (es : List DirEntry)
    (hempty : rowsAt db repo shortId path = [])
    (hnd : (es.map (·.name)).Nodup) :
    rowsAt (LsCache_Store db repo shortId path es) repo shortId path = es := by
  have hnone : ∀ e ∈ es,
      alookup (repo, shortId, path, e.name) db.dir_entries = none :=
    fun e _ => alookup_eq_none_of_rowsAt_nil e.name hempty
  unfold rowsAt
  rw [LsCache_Store_dir_entries, storeRows_eq_append _ _ _ _ _ hnone hnd]
  rw [List.filter_append]
  have h1 : db.dir_entries.filter
      (fun r => decide (rowKeyMatches repo shortId path r.1)) = [] := by
    have := hempty
    unfold rowsAt at this
    exact List.map_eq_nil_iff.1 this
  have h2 : (es.map fun e => ((repo, shortId, path, e.name), e)).filter
      (fun r => decide (rowKeyMatches repo shortId path r.1))
      = es.map fun e => ((repo, shortId, path, e.name), e) := by
    rw [List.filter_eq_self]
    intro a ha
    obtain ⟨e, _, rfl⟩ := List.mem_map.1 ha
    simp
  rw [h1, h2]
  simp only [List.nil_append, List.map_map]
  exact List.map_id'' (fun e => rfl) es

/-- Lookup after a fresh, nonempty, distinct-name store returns exactly
the stored entries with their count. -/
theorem LsCache_Lookup_store_fresh (db : DbState) (repo shortId path : String)
    (es : List DirEntry)
    (hempty : rowsAt db repo shortId path = [])
    (hnd : (es.map (·.name)).Nodup) (hne : es ≠ []) :
    LsCache_Lookup (LsCache_Store db repo shortId path es) repo shortId path
      = (some es, es.length) := by
  unfold LsCache_Lookup
  rw [sentinelAt_store_self, rowsAt_store_self db repo shortId path es hempty hnd]
  have hlen : es.length ≠ 0 := fun h => hne (List.length_eq_zero.1 h)
  simp only [hlen, if_false]
  rw [List.take_length]
  have : es.isEmpty = false := by
    cases es with
    | nil => exact absurd rfl hne
    | cons a t => rfl
  simp [this]

/-! ## Concrete entries used in evaluations -/

def entA : DirEntry := ⟨"a.txt", false, 10, 0, "2025-01-01T00:00:00Z"⟩

def entB : DirEntry := ⟨"b.txt", false, 20, 0, "2025-01-02T00:00:00Z"⟩

def entC : DirEntry := ⟨"c.txt", false, 30, 0, "2025-01-03T00:00:00Z"⟩

/-- **C1** — code-bug evidence.  The claim (and `wfx_interface.c` line
846's comment "LsCache_Lookup returns non-NULL for any cache hit (even
empty dirs)") require the *emptyHit* state to be distinguishable from
*unknown* at the `LsCache_Lookup` interface.  In the source
(`ls_cache.c` lines 227–239) both cases return `NULL` with `*outCount = 0`:
after `LsCache_Store(..., [])` the sentinel row with `entry_count = 0`
does exist in the database, yet the lookup observables for the stored-empty
key and for a never-stored key are identical `(none, 0)`. -/
theorem C1_emptyHit_indistinguishable_codebug :
    LsCache_Lookup (LsCache_Store emptyDb "repo" "abcd1234" "/d/empty" [])
        "repo" "abcd1234" "/d/empty" = (none, 0) ∧
    LsCache_Lookup emptyDb "repo" "abcd1234" "/d/never" = (none, 0) ∧
    sentinelAt (LsCache_Store emptyDb "repo" "abcd1234" "/d/empty" [])
        "repo" "abcd1234" "/d/empty" = some 0 ∧
    sentinelAt emptyDb "repo" "abcd1234" "/d/never" = none ∧
    LsCache_Lookup (LsCache_Store emptyDb "repo" "abcd1234" "/d/two" [entA, entB])
        "repo" "abcd1234" "/d/two" = (some [entA, entB], 2) := by
  refine ⟨rfl, rfl, ?_, rfl, ?_⟩ <;> decide

/-- **C3** — counterexample to "the store replaces any existing row set
for that key, so a lookup after the store returns exactly the newly stored
entries even when a different, larger entry set was previously stored
under the same key".  `LsCache_Store` only `INSERT OR REPLACE`s rows by
`(short_id, path, name)` and never deletes rows absent from the new set:
after storing `[entA, entB]` and then `[entC]` under the same key, the
lookup returns the single stale row `entA`, not `entC`. -/
theorem C3_store_replace_counterexample :
    LsCache_Lookup
        (LsCache_Store (LsCache_Store emptyDb "r" "196bc576" "/p" [entA, entB])
          "r" "196bc576" "/p" [entC]) "r" "196bc576" "/p"
      = (some [entA], 1) ∧
    entA ≠ entC := by
  constructor <;> decide

/-- **C3** — amended: `LsCache_Store` writes all child rows plus the
sentinel row in one transaction, so the observable database state is
either the untouched pre-transaction state (any insert failure triggers
`ROLLBACK`) or the fully-written state, in which the sentinel carries the
new count and every newly stored entry is present as a child row; rows
previously stored under the same key whose names are *not* among the new
entries' names are retained, not deleted (hence a later lookup can mix old
and new rows — see the counterexample). -/
theorem C3_store_transactional_amended (db : DbState)
    (repo shortId path : String) (entries : List DirEntry)
    (failAt : Option Nat) (hnd : (entries.map (·.name)).Nodup) :
    (LsCache_StoreTxn db repo shortId path entries failAt = db ∨
      LsCache_StoreTxn db repo shortId path entries failAt
        = LsCache_Store db repo shortId path entries) ∧
    LsCache_StoreTxn db repo shortId path entries none
        = LsCache_Store db repo shortId path entries ∧
    sentinelAt (LsCache_Store db repo shortId path entries) repo shortId path
        = some entries.length ∧
    (∀ e ∈ entries,
      alookup (repo, shortId, path, e.name)
        (LsCache_Store db repo shortId path entries).dir_entries = some e) ∧
    (∀ n v, n ∉ entries.map (·.name) →
      alookup (repo, shortId, path, n) db.dir_entries = some v →
      alookup (repo, shortId, path, n)
        (LsCache_Store db repo shortId path entries).dir_entries = some v) := by
  refine ⟨?_, rfl, sentinelAt_store_self db repo shortId path entries, ?_, ?_⟩
  · cases failAt with
    | none => exact Or.inr rfl
    | some i =>
      by_cases hi : i ≤ entries.length
      · exact Or.inl (by simp [LsCache_StoreTxn, hi])
      · exact Or.inr (by simp [LsCache_StoreTxn, hi])
  · intro e he
    rw [LsCache_Store_dir_entries]
    exact alookup_storeRows_self _ _ _ _ hnd he
  · intro n v hn halo
    rw [LsCache_Store_dir_entries]
    rw [alookup_storeRows_ne]
    · exact halo
    · intro e he hk
      have : e.name = n := by
        have := congrArg (fun q : RowKey => q.2.2.2) hk
        simpa using this
      exact hn (this ▸ List.mem_map_of_mem (·.name) he)

/-- Witness for `C3_store_transactional_amended` at a concrete input
(failure at the first child-row insert of a two-entry store). -/
theorem C3_store_transactional_amended_witness :
    (([entA, entB].map (·.name)).Nodup) ∧
    ((LsCache_StoreTxn emptyDb "r" "196bc576" "/p" [entA, entB] (some 0) = emptyDb ∨
       LsCache_StoreTxn emptyDb "r" "196bc576" "/p" [entA, entB] (some 0)
         = LsCache_Store emptyDb "r" "196bc576" "/p" [entA, entB]) ∧
     LsCache_StoreTxn emptyDb "r" "196bc576" "/p" [entA, entB] none
         = LsCache_Store emptyDb "r" "196bc576" "/p" [entA, entB] ∧
     sentinelAt (LsCache_Store emptyDb "r" "196bc576" "/p" [entA, entB])
         "r" "196bc576" "/p" = some ([entA, entB] : List DirEntry).length ∧
     (∀ e ∈ ([entA, entB] : List DirEntry),
       alookup ("r", "196bc576", "/p", e.name)
         (LsCache_Store emptyDb "r" "196bc576" "/p" [entA, entB]).dir_entries
           = some e) ∧
     (∀ n v, n ∉ ([entA, entB] : List DirEntry).map (·.name) →
       alookup ("r", "196bc576", "/p", n) emptyDb.dir_entries = some v →
       alookup ("r", "196bc576", "/p", n)
         (LsCache_Store emptyDb "r" "196bc576" "/p" [entA, entB]).dir_entries
           = some v)) :=
  ⟨by decide,
   C3_store_transactional_amended emptyDb "r" "196bc576" "/p" [entA, entB]
     (some 0) (by decide)⟩

/-! ## Path sanitization (`SanitizePath`, `wfx_interface.c` lines 253–287) -/

/-- One step of the replacement loop (lines 259–266): path separators and
the drive colon become `_`. -/
def sanitizeChar (c : Char) : Char :=
  if c = '\\' ∨ c = '/' ∨ c = ':' then '_' else c

/-- The buffer after the replacement loop. -/
def replOf (raw : String) : List Char := raw.data.map sanitizeChar

/-- The trailing-underscore scan (lines 273–275). -/
def dropTrailingUnderscores (l : List Char) : List Char :=
  (l.reverse.dropWhile (fun c => decide (c = '_'))).reverse

/-- The buffer after both strips (lines 269–275). -/
def strippedOf (raw : String) : List Char :=
  dropTrailingUnderscores ((replOf raw).dropWhile (fun c => decide (c = '_')))

/-- `SanitizePath`: replace `\`, `/`, `:` by `_`, then strip leading and
trailing underscores; if stripping removed everything the result is the
`"_"` fallback (lines 277–283).  An empty input takes neither strip branch
and stays empty. -/
def SanitizePath (raw : String) : String :=
  if replOf raw = [] then ""
  else if strippedOf raw = [] then "_"
  else ⟨strippedOf raw⟩

theorem sanitizeChar_not_sep (c : Char) :
    sanitizeChar c ≠ '\\' ∧ sanitizeChar c ≠ '/' ∧ sanitizeChar c ≠ ':' := by
  unfold sanitizeChar
  by_cases hc : c = '\\' ∨ c = '/' ∨ c = ':'
  · rw [if_pos hc]
    refine ⟨?_, ?_, ?_⟩ <;> decide
  · rw [if_neg hc]
    push_neg at hc
    exact hc

theorem sanitizeChar_fix {c : Char} (h1 : c ≠ '\\') (h2 : c ≠ '/')
    (h3 : c ≠ ':') : sanitizeChar c = c := by
  have : ¬ (c = '\\' ∨ c = '/' ∨ c = ':') := by
    rintro (h | h | h)
    exacts [h1 h, h2 h, h3 h]
  simp [sanitizeChar, this]

theorem dropWhile_head_not {p : Char → Bool} {l t : List Char} {c : Char}
    (h : l.dropWhile p = c :: t) : p c = false := by
  induction l with
  | nil => simp [List.dropWhile] at h
  | cons a l ih =>
    by_cases ha : p a
    · rw [List.dropWhile_cons, if_pos ha] at h
      exact ih h
    · rw [List.dropWhile_cons, if_neg ha] at h
      cases h
      exact Bool.not_eq_true _ ▸ (by simpa using ha)

theorem dropWhile_cons_of_neg {p : Char → Bool} {c : Char} {t : List Char}
    (h : p c = false) : (c :: t).dropWhile p = c :: t := by
  rw [List.dropWhile_cons, if_neg (by simp [h])]

/-- The stripped buffer, extended by the trailing underscores it removed,
gives back the leading-stripped buffer. -/
theorem stripped_append (raw : String) :
    strippedOf raw ++
        (((replOf raw).dropWhile (fun c => decide (c = '_'))).reverse.takeWhile
          (fun c => decide (c = '_'))).reverse
      = (replOf raw).dropWhile (fun c => decide (c = '_')) := by
  unfold strippedOf dropTrailingUnderscores
  set u := (replOf raw).dropWhile (fun c => decide (c = '_')) with hu
  have h := List.takeWhile_append_dropWhile
    (p := fun c => decide (c = '_')) (l := u.reverse)
  calc (u.reverse.dropWhile (fun c => decide (c = '_'))).reverse ++
          (u.reverse.takeWhile (fun c => decide (c = '_'))).reverse
      = (u.reverse.takeWhile (fun c => decide (c = '_')) ++
          u.reverse.dropWhile (fun c => decide (c = '_'))).reverse := by
        rw [List.reverse_append]
    _ = u.reverse.reverse := by rw [h]
    _ = u := List.reverse_reverse u

/-- Every character surviving sanitization is the image of some raw
character under `sanitizeChar`. -/
theorem mem_strippedOf {raw : String} {c : Char} (hc : c ∈ strippedOf raw) :
    ∃ c₀, sanitizeChar c₀ = c := by
  have h1 : c ∈ (replOf raw).dropWhile (fun c => decide (c = '_')) := by
    rw [← stripped_append raw]
    exact List.mem_append_left _ hc
  have h2 : c ∈ replOf raw := (List.dropWhile_sublist _).mem h1
  obtain ⟨c₀, _, rfl⟩ := List.mem_map.1 h2
  exact ⟨c₀, rfl⟩

/-- **C9** — for every non-empty input, `SanitizePath` returns a
non-empty string containing no `\`, `/` or `:`, and `SanitizePath` is
idempotent. -/
theorem C9_sanitize_path (raw : String) (h : raw ≠ "") :
    SanitizePath raw ≠ "" ∧
    (∀ c ∈ (SanitizePath raw).data, c ≠ '\\' ∧ c ≠ '/' ∧ c ≠ ':') ∧
    SanitizePath (SanitizePath raw) = SanitizePath raw := by
  have hdata : raw.data ≠ [] := by
    intro hd
    apply h
    cases raw
    simp at hd
    simp [hd]
  have hrepl : replOf raw ≠ [] := by
    intro hr
    exact hdata (List.map_eq_nil_iff.1 hr)
  by_cases hs : strippedOf raw = []
  · have hval : SanitizePath raw = "_" := by
      unfold SanitizePath
      rw [if_neg hrepl, if_pos hs]
    refine ⟨?_, ?_, ?_⟩ <;> rw [hval]
    · decide
    · decide
    · decide
  · have hval : SanitizePath raw = ⟨strippedOf raw⟩ := by
      unfold SanitizePath
      rw [if_neg hrepl, if_neg hs]
    have hmem : ∀ c ∈ strippedOf raw, c ≠ '\\' ∧ c ≠ '/' ∧ c ≠ ':' := by
      intro c hc
      obtain ⟨c₀, rfl⟩ := mem_strippedOf hc
      exact sanitizeChar_not_sep c₀
    refine ⟨?_, ?_, ?_⟩
    · rw [hval]
      intro hcontra
      apply hs
      have : (⟨strippedOf raw⟩ : String).data = ("" : String).data := by
        rw [hcontra]
      simpa using this
    · rw [hval]
      intro c hc
      exact hmem c hc
    · rw [hval]
      -- the output has no separators, no leading and no trailing underscore
      obtain ⟨c, t, hct⟩ : ∃ c t, strippedOf raw = c :: t := by
        cases hsr : strippedOf raw with
        | nil => exact absurd hsr hs
        | cons c t => exact ⟨c, t, rfl⟩
      -- head is not an underscore
      have hhead : (fun c => decide (c = '_')) c = false := by
        have happ := stripped_append raw
        rw [hct] at happ
        exact dropWhile_head_not happ.symm
      -- the reverse's head is not an underscore either
      have hrev : ∃ c' t', (strippedOf raw).reverse = c' :: t' := by
        cases hrr : (strippedOf raw).reverse with
        | nil =>
          exfalso
          apply hs
          have := congrArg List.reverse hrr
          simpa using this
        | cons c' t' => exact ⟨c', t', rfl⟩
      obtain ⟨c', t', hct'⟩ := hrev
      have hlast : (fun c => decide (c = '_')) c' = false := by
        have : (strippedOf raw).reverse
            = ((replOf raw).dropWhile
                (fun c => decide (c = '_'))).reverse.dropWhile
                  (fun c => decide (c = '_')) := by
          unfold strippedOf dropTrailingUnderscores
          rw [List.reverse_reverse]
        rw [hct'] at this
        exact dropWhile_head_not this.symm
      -- sanitizeChar is the identity on the output characters
      have hmap : (strippedOf raw).map sanitizeChar = strippedOf raw := by
        have : ∀ x ∈ strippedOf raw, sanitizeChar x = x := by
          intro x hx
          obtain ⟨h1, h2, h3⟩ := hmem x hx
          exact sanitizeChar_fix h1 h2 h3
        calc (strippedOf raw).map sanitizeChar
            = (strippedOf raw).map id := List.map_congr_left this
          _ = strippedOf raw := List.map_id _
      have hrepl' : replOf ⟨strippedOf raw⟩ = strippedOf raw := by
        unfold replOf
        exact hmap
      have hdrop : (strippedOf raw).dropWhile (fun c => decide (c = '_'))
          = strippedOf raw := by
        rw [hct]
        exact dropWhile_cons_of_neg hhead
      have htrail : dropTrailingUnderscores (strippedOf raw)
          = strippedOf raw := by
        unfold dropTrailingUnderscores
        rw [hct', dropWhile_cons_of_neg hlast, ← hct', List.reverse_reverse]
      have hstr' : strippedOf ⟨strippedOf raw⟩ = strippedOf raw := by
        generalize hgen : strippedOf raw = s at hrepl' hdrop htrail ⊢
        unfold strippedOf
        rw [hrepl', hdrop, htrail]
      unfold SanitizePath
      rw [hrepl', hstr', if_neg hs, if_neg hs]

/-- Witness for `C9_sanitize_path` at a concrete backup path. -/
theorem C9_sanitize_path_witness :
    ("D:\\Fotky\\Mix" : String) ≠ "" ∧
    (SanitizePath "D:\\Fotky\\Mix" ≠ "" ∧
     (∀ c ∈ (SanitizePath "D:\\Fotky\\Mix").data,
        c ≠ '\\' ∧ c ≠ '/' ∧ c ≠ ':') ∧
     SanitizePath (SanitizePath "D:\\Fotky\\Mix")
        = SanitizePath "D:\\Fotky\\Mix") :=
  ⟨by decide, C9_sanitize_path "D:\\Fotky\\Mix" (by decide)⟩

/-! ## File retrieval and user cancellation
(`RunResticDump`, `restic_process.c` lines 245–395;
`FsGetFile` result mapping, `wfx_interface.c` lines 1660–1675) -/

/-- WFX result codes from `fsplugin.h`. -/
def FS_FILE_OK : Int := 0

def FS_FILE_READERROR : Int := 3

def FS_FILE_USERABORT : Int := 5

/-- Observables of one `RunResticDump` call. -/
structure DumpOutcome where
  ok : Bool
  /-- `pud.aborted`: set when the progress callback requested an abort. -/
  aborted : Bool
  /-- `TerminateProcess` was called on the restic process. -/
  processTerminated : Bool
  /-- the output file exists when the call returns. -/
  outputFileExists : Bool
  bytesWritten : Nat
deriving DecidableEq, Repr

/-- The streaming loop of `RunResticDump` (lines 351–363): after writing
each chunk the progress callback is consulted; `abortQuery w = true`
models `g_ProgressProc` returning nonzero (user abort) at `w` total bytes
written, which makes `DumpProgressCallback` set `pud.aborted` and return
`FALSE`, breaking the loop.  Returns (total bytes written, aborted). -/
def dumpLoop (abortQuery : Nat → Bool) : List Nat → Nat → Nat × Bool
  | [], written => (written, false)
  | chunk :: rest, written =>
    let w := written + chunk
    if abortQuery w then (w, true) else dumpLoop abortQuery rest w

/-- `RunResticDump` after the process started and the output file was
created (lines 338–394): stream the chunks; on abort, terminate the
process, delete the partially-written output file and return `FALSE`
(lines 368–376); otherwise wait for exit — nonzero exit also deletes the
file and returns `FALSE` (lines 389–392), success keeps it. -/
def RunResticDump (chunks : List Nat) (abortQuery : Nat → Bool)
    (exitCode : Nat) : DumpOutcome :=
  let r := dumpLoop abortQuery chunks 0
  if r.2 then ⟨false, true, true, false, r.1⟩
  else if exitCode ≠ 0 then ⟨false, false, false, false, r.1⟩
  else ⟨true, false, false, true, r.1⟩

/-- The result mapping at the end of `FsGetFile` (lines 1666–1674):
failure with `pud.aborted` set is `FS_FILE_USERABORT`, any other failure
is `FS_FILE_READERROR`. -/
def FsGetFile_result (d : DumpOutcome) : Int :=
  if d.ok then FS_FILE_OK
  else if d.aborted then FS_FILE_USERABORT
  else FS_FILE_READERROR

/-- **C7** — if the user cancels during a retrieval (the progress
callback requests abort at some point of the stream), the restic process
is terminated, the partially written output file is deleted, and
`FsGetFile` returns the distinct `FS_FILE_USERABORT`, not
`FS_FILE_READERROR`. -/
theorem C7_user_abort (chunks : List Nat) (abortQuery : Nat → Bool)
    (exitCode : Nat) (h : (dumpLoop abortQuery chunks 0).2 = true) :
    (RunResticDump chunks abortQuery exitCode).processTerminated = true ∧
    (RunResticDump chunks abortQuery exitCode).outputFileExists = false ∧
    FsGetFile_result (RunResticDump chunks abortQuery exitCode)
        = FS_FILE_USERABORT ∧
    FS_FILE_USERABORT ≠ FS_FILE_READERROR := by
  refine ⟨?_, ?_, ?_, by decide⟩ <;>
    simp [RunResticDump, FsGetFile_result, h]

/-- Witness for `C7_user_abort`: a two-chunk stream whose progress
callback asks to abort once 10 bytes were written. -/
theorem C7_user_abort_witness :
    (dumpLoop (fun w => decide (10 ≤ w)) [5, 5, 5] 0).2 = true ∧
    ((RunResticDump [5, 5, 5] (fun w => decide (10 ≤ w)) 0).processTerminated
        = true ∧
     (RunResticDump [5, 5, 5] (fun w => decide (10 ≤ w)) 0).outputFileExists
        = false ∧
     FsGetFile_result (RunResticDump [5, 5, 5] (fun w => decide (10 ≤ w)) 0)
        = FS_FILE_USERABORT ∧
     FS_FILE_USERABORT ≠ FS_FILE_READERROR) :=
  ⟨by decide, C7_user_abort [5, 5, 5] (fun w => decide (10 ≤ w)) 0 (by decide)⟩

/-! ## The batch-restore session (`wfx_interface.c`)

`g_BatchRestore` (lines 88–97) with the transfer-end handler of
`FsStatusInfo` (lines 1970–1977) and the cleanup branch of `FsDisconnect`
(lines 1866–1869). -/

/-- The `g_BatchRestore` global. -/
structure BatchRestoreState where
  active : Bool
  pending : Bool
  tempDir : String
  resticPrefix : String
  repoPath : String
  password : String
  snapshotPath : String
  shortId : String
deriving DecidableEq, Repr

/-- `memset(&g_BatchRestore, 0, sizeof(g_BatchRestore))`: the Idle
session with every field cleared. -/
def idleBatchRestore : BatchRestoreState := ⟨false, false, "", "", "", "", "", ""⟩

/-- Observables of a session-cleanup call: the resulting session plus
whether the session's temporary restore directory was deleted. -/
structure SessionEndResult where
  session : BatchRestoreState
  tempDirDeleted : Bool
deriving DecidableEq, Repr

/-- The `FS_STATUS_END` branch of `FsStatusInfo` for a multi-file get
(lines 1970–1977): if the session is Active *or* Pending, delete its temp
directory (when one was created), `SecureZeroMemory` the password and
clear the whole struct. -/
def FsStatusInfo_end (s : BatchRestoreState) : SessionEndResult :=
  if s.active || s.pending then
    ⟨idleBatchRestore, !(s.tempDir.isEmpty)⟩
  else ⟨s, false⟩

/-- The batch-session cleanup at the top of `FsDisconnect`
(lines 1866–1869): only an *Active* session is torn down; a Pending one is
left untouched. -/
def FsDisconnect_batch (s : BatchRestoreState) : SessionEndResult :=
  if s.active then ⟨idleBatchRestore, true⟩ else ⟨s, false⟩

/-- A session in the Pending phase (after `FsStatusInfo(START)` created
the temp directory and stashed the credentials, before the first
`FsGetFile`). -/
def pendingSession : BatchRestoreState :=
  ⟨false, true, "C:\\Temp\\restic_wfx\\restore_196bc576_0000ABCD",
   "/d/Fotky/Mix", "E:\\backup", "secret-password", "D:\\Fotky\\Mix", "196bc576"⟩

/-- The same session once the bulk restore succeeded (Active phase). -/
def activeSession : BatchRestoreState :=
  { pendingSession with active := true, pending := false }

/-- **C6** — code-bug evidence.  Ending a session via the host's
transfer-completion signal does return it to Idle, release the temp
directory and clear the credentials, in both the Pending and the Active
phase; ending via `FsDisconnect`, however, only cleans up an Active
session: a session still in the Pending phase survives disconnect with
its password intact and its temp directory never deleted, contradicting
the claim (and the spec sentence "ending always releases the session's
temporary storage and clears any held credential material"). -/
theorem C6_batch_end_codebug :
    FsStatusInfo_end pendingSession = ⟨idleBatchRestore, true⟩ ∧
    FsStatusInfo_end activeSession = ⟨idleBatchRestore, true⟩ ∧
    FsDisconnect_batch activeSession = ⟨idleBatchRestore, true⟩ ∧
    FsDisconnect_batch pendingSession = ⟨pendingSession, false⟩ ∧
    (FsDisconnect_batch pendingSession).session.password = "secret-password" ∧
    (FsDisconnect_batch pendingSession).session.pending = true := by
  refine ⟨?_, ?_, ?_, ?_, ?_, ?_⟩ <;> decide

/-! ## The snapshot-list TTL cache (`FetchSnapshots`,
`wfx_interface.c` lines 99–137 and 291–367; sorting from
`ParseSnapshots` / `CompareSnapshotsDesc`, `json_parse.c` lines 43–47 and
136–143) -/

def SNAPSHOT_CACHE_TTL_MS : Nat := 300000

def MAX_REPOS : Nat := 16

/-- `ULONGLONG` subtraction `now - fetchTimeMs` (both operands below
`2^64`). -/
def usub64 (a b : Nat) : Nat := (2 ^ 64 + a - b) % 2 ^ 64

/-- `strcmp(a, b) <= 0` on the underlying character lists: byte-wise
lexicographic comparison (UTF-8 byte order and code-point order agree). -/
def charsLe : List Char → List Char → Bool
  | [], _ => true
  | _ :: _, [] => false
  | a :: as, b :: bs =>
    if a.toNat < b.toNat then true
    else if b.toNat < a.toNat then false
    else charsLe as bs

/-- `strcmp(a, b) <= 0` on strings. -/
def strcmpLe (a b : String) : Prop := charsLe a.data b.data = true

instance : DecidableRel strcmpLe :=
  fun a b => (inferInstance : Decidable (charsLe a.data b.data = true))

theorem charsLe_total : ∀ a b : List Char,
    charsLe a b = true ∨ charsLe b a = true
  | [], _ => Or.inl rfl
  | _ :: _, [] => Or.inr rfl
  | a :: as, b :: bs => by
    rcases Nat.lt_trichotomy a.toNat b.toNat with h | h | h
    · left
      simp [charsLe, h]
    · rcases charsLe_total as bs with ih | ih
      · left
        simp [charsLe, h, Nat.lt_irrefl, ih]
      · right
        simp [charsLe, h.symm, Nat.lt_irrefl, ih]
    · right
      simp [charsLe, h]

theorem charsLe_trans : ∀ {a b c : List Char},
    charsLe a b = true → charsLe b c = true → charsLe a c = true
  | [], _, _, _, _ => rfl
  | _ :: _, [], _, h1, _ => by simp [charsLe] at h1
  | _ :: _, _ :: _, [], _, h2 => by simp [charsLe] at h2
  | a :: as, b :: bs, c :: cs, h1, h2 => by
    by_cases hab : a.toNat < b.toNat
    · by_cases hbc : b.toNat < c.toNat
      · simp [charsLe, Nat.lt_trans hab hbc]
      · by_cases hcb : c.toNat < b.toNat
        · simp [charsLe, hbc, hcb] at h2
        · have hbceq : b.toNat = c.toNat := Nat.le_antisymm
            (Nat.le_of_not_lt hcb) (Nat.le_of_not_lt hbc)
          simp [charsLe, hbceq ▸ hab]
    · by_cases hba : b.toNat < a.toNat
      · simp [charsLe, hab, hba] at h1
      · have habeq : a.toNat = b.toNat := Nat.le_antisymm
          (Nat.le_of_not_lt hba) (Nat.le_of_not_lt hab)
        have h1' : charsLe as bs = true := by
          simpa [charsLe, hab, hba] using h1
        by_cases hbc : b.toNat < c.toNat
        · simp [charsLe, habeq ▸ hbc]
        · by_cases hcb : c.toNat < b.toNat
          · simp [charsLe, hbc, hcb] at h2
          · have h2' : charsLe bs cs = true := by
              simpa [charsLe, hbc, hcb] using h2
            have hac : ¬ a.toNat < c.toNat := habeq ▸ hbc
            have hca : ¬ c.toNat < a.toNat := habeq ▸ hcb
            simp [charsLe, hac, hca, charsLe_trans h1' h2']

/-- The comparison relation of `CompareSnapshotsDesc` (`json_parse.c`
lines 43–47): `strcmp(b->time, a->time) <= 0`, i.e. newest (largest time
string) first. -/
def snapTimeGE (a b : ResticSnapshot) : Prop := strcmpLe b.time a.time

instance : DecidableRel snapTimeGE :=
  fun a b => (inferInstance : Decidable (strcmpLe b.time a.time))

instance : IsTotal ResticSnapshot snapTimeGE :=
  ⟨fun a b => charsLe_total b.time.data a.time.data⟩

instance : IsTrans ResticSnapshot snapTimeGE :=
  ⟨fun _ _ _ h1 h2 => charsLe_trans h2 h1⟩

/-- The `qsort(..., CompareSnapshotsDesc)` step of `ParseSnapshots`:
sort descending by the ISO-8601 time string.  (`qsort` is an unspecified,
unstable sort; any sort under the same comparison models it, and the
embedding uses insertion sort.) -/
def sortSnapshotsDesc (l : List ResticSnapshot) : List ResticSnapshot :=
  List.insertionSort snapTimeGE l

/-- One slot of `g_SnapCache`. -/
structure SnapCacheEntry where
  repoName : String
  snapshots : List ResticSnapshot
  fetchTimeMs : Nat
deriving DecidableEq, Repr

/-- The cache-scan loop of `FetchSnapshots` / `InvalidateSnapshotCache`:
index of the first entry whose `repoName` matches. -/
def findRepoIdx (repoName : String) : List SnapCacheEntry → Option Nat
  | [] => none
  | e :: t =>
    if e.repoName = repoName then some 0
    else (findRepoIdx repoName t).map (· + 1)

/-- Slot removal as the C does it: `count--`, then move the last slot into
the freed index (lines 308–312). -/
def removeSwapAt (l : List SnapCacheEntry) (i : Nat) : List SnapCacheEntry :=
  match l.getLast? with
  | none => []
  | some last => l.dropLast.set i last

/-- Observables of one `FetchSnapshots` call: the returned snapshot list,
whether restic was invoked, and the resulting cache. -/
structure FetchResult where
  snapshots : List ResticSnapshot
  backendCalled : Bool
  cache : List SnapCacheEntry
deriving DecidableEq, Repr

/-- The fetch path of `FetchSnapshots` (lines 317–366): run restic
(`backendResult = none` models a start failure or nonzero exit, in which
case the call returns empty), parse and sort
(`sortSnapshotsDesc`), and store the sorted result with the current tick
into a free cache slot when one is available (`g_SnapCacheCount <
MAX_REPOS`). -/
def fetchFresh (cache : List SnapCacheEntry) (now : Nat) (repoName : String)
    (backendResult : Option (List ResticSnapshot)) : FetchResult :=
  match backendResult with
  | none => ⟨[], true, cache⟩
  | some raw =>
    if raw = [] then ⟨[], true, cache⟩
    else
      ⟨sortSnapshotsDesc raw, true,
        if cache.length < MAX_REPOS then
          cache ++ [⟨repoName, sortSnapshotsDesc raw, now⟩]
        else cache⟩

/-- `FetchSnapshots` (lines 291–367): scan the cache for the repo; a
fresh-enough entry (age below the 300 000 ms TTL) is returned without a
backend call; an expired entry is removed (swap-with-last) and a fresh
fetch is performed; a missing entry goes straight to the fresh fetch. -/
def FetchSnapshots (cache : List SnapCacheEntry) (now : Nat)
    (repoName : String) (backendResult : Option (List ResticSnapshot)) :
    FetchResult :=
  match findRepoIdx repoName cache with
  | none => fetchFresh cache now repoName backendResult
  | some i =>
    match cache[i]? with
    | none => fetchFresh cache now repoName backendResult
    | some e =>
      if usub64 now e.fetchTimeMs < SNAPSHOT_CACHE_TTL_MS then
        ⟨e.snapshots, false, cache⟩
      else fetchFresh (removeSwapAt cache i) now repoName backendResult

theorem usub64_of_le {a b : Nat} (hle : b ≤ a) (ha : a < 2 ^ 64) :
    usub64 a b = a - b := by
  unfold usub64
  rw [Nat.add_sub_assoc hle]
  rw [Nat.add_mod_left]
  exact Nat.mod_eq_of_lt (lt_of_le_of_lt (Nat.sub_le _ _) ha)

theorem findRepoIdx_append_none {repoName : String}
    {cache : List SnapCacheEntry} (e : SnapCacheEntry)
    (h : findRepoIdx repoName cache = none) (he : e.repoName = repoName) :
    findRepoIdx repoName (cache ++ [e]) = some cache.length := by
  induction cache with
  | nil => simp [findRepoIdx, he]
  | cons e₀ t ih =>
    by_cases h0 : e₀.repoName = repoName
    · rw [show findRepoIdx repoName (e₀ :: t) = some 0 from by
        simp [findRepoIdx, h0]] at h
      simp at h
    · have hmap : findRepoIdx repoName (e₀ :: t)
          = (findRepoIdx repoName t).map (· + 1) := by
        simp [findRepoIdx, h0]
      rw [hmap, Option.map_eq_none'] at h
      have hstep : findRepoIdx repoName ((e₀ :: t) ++ [e])
          = (findRepoIdx repoName (t ++ [e])).map (· + 1) := by
        simp [findRepoIdx, h0]
      rw [hstep, ih h]
      rfl

theorem getElem?_append_length {α : Type} (l : List α) (x : α) :
    (l ++ [x])[l.length]? = some x := by
  induction l with
  | nil => rfl
  | cons a t ih => simp only [List.cons_append, List.length_cons,
      List.getElem?_cons_succ, ih]

theorem fetchFresh_backendCalled (cache : List SnapCacheEntry) (now : Nat)
    (repoName : String) (b : Option (List ResticSnapshot)) :
    (fetchFresh cache now repoName b).backendCalled = true := by
  unfold fetchFresh
  cases b with
  | none => rfl
  | some raw =>
    by_cases hr : raw = [] <;> simp [hr]

/-- **C8** — the fetch path of `listSnapshots` returns exactly the parsed
list sorted newest-first, where the order is descending lexicographic
comparison of the ISO-8601 time strings (and the sorted list is a
permutation of the parsed one). -/
theorem C8_snapshots_sorted_desc (cache : List SnapCacheEntry) (now : Nat)
    (repoName : String) (raw : List ResticSnapshot) :
    (fetchFresh cache now repoName (some raw)).snapshots
        = sortSnapshotsDesc raw ∧
    List.Sorted (fun a b : ResticSnapshot => strcmpLe b.time a.time)
        (sortSnapshotsDesc raw) ∧
    (sortSnapshotsDesc raw).Perm raw := by
  refine ⟨?_, ?_, ?_⟩
  · unfold fetchFresh
    by_cases hr : raw = []
    · subst hr
      simp [sortSnapshotsDesc, List.mergeSort]
    · simp [hr]
  · exact List.sorted_insertionSort snapTimeGE raw
  · exact List.perm_insertionSort snapTimeGE raw

/-- **C4** — TTL behaviour of the snapshot cache: after a successful
fresh fetch at `t0` (stored because a cache slot was free), a second call
strictly within the 300 000 ms TTL returns the identical snapshot list
with no backend call and an unchanged cache, whatever the backend would
have answered; a call at or after TTL expiry performs exactly one fresh
backend fetch. -/
theorem C4_snapshot_ttl (cache : List SnapCacheEntry) (t0 t1 t2 : Nat)
    (repoName : String) (raw : List ResticSnapshot)
    (b1 b2 : Option (List ResticSnapshot))
    (hmiss : findRepoIdx repoName cache = none)
    (hroom : cache.length < MAX_REPOS)
    (hraw : raw ≠ [])
    (h01 : t0 ≤ t1) (httl : t1 - t0 < SNAPSHOT_CACHE_TTL_MS)
    (h1max : t1 < 2 ^ 64)
    (h02 : t0 + SNAPSHOT_CACHE_TTL_MS ≤ t2) (h2max : t2 < 2 ^ 64) :
    (FetchSnapshots cache t0 repoName (some raw)).backendCalled = true ∧
    (FetchSnapshots (FetchSnapshots cache t0 repoName (some raw)).cache
        t1 repoName b1).snapshots
      = (FetchSnapshots cache t0 repoName (some raw)).snapshots ∧
    (FetchSnapshots (FetchSnapshots cache t0 repoName (some raw)).cache
        t1 repoName b1).backendCalled = false ∧
    (FetchSnapshots (FetchSnapshots cache t0 repoName (some raw)).cache
        t1 repoName b1).cache
      = (FetchSnapshots cache t0 repoName (some raw)).cache ∧
    (FetchSnapshots (FetchSnapshots cache t0 repoName (some raw)).cache
        t2 repoName b2).backendCalled = true := by
  have hres0 : FetchSnapshots cache t0 repoName (some raw)
      = ⟨sortSnapshotsDesc raw, true,
          cache ++ [⟨repoName, sortSnapshotsDesc raw, t0⟩]⟩ := by
    unfold FetchSnapshots
    rw [hmiss]
    unfold fetchFresh
    simp [hraw, hroom]
  set entry : SnapCacheEntry := ⟨repoName, sortSnapshotsDesc raw, t0⟩ with hentry
  have hfind : findRepoIdx repoName (cache ++ [entry]) = some cache.length :=
    findRepoIdx_append_none entry hmiss rfl
  have hget : (cache ++ [entry])[cache.length]? = some entry :=
    getElem?_append_length cache entry
  have hhit : usub64 t1 t0 < SNAPSHOT_CACHE_TTL_MS := by
    rw [usub64_of_le h01 h1max]
    exact httl
  have hexp : ¬ usub64 t2 t0 < SNAPSHOT_CACHE_TTL_MS := by
    have h0t2 : t0 ≤ t2 := le_trans (Nat.le_add_right _ _) h02
    rw [usub64_of_le h0t2 h2max]
    unfold SNAPSHOT_CACHE_TTL_MS at h02 ⊢
    omega
  refine ⟨by rw [hres0], ?_, ?_, ?_, ?_⟩
  · rw [hres0]
    simp [FetchSnapshots, hfind, hget, hhit, hentry]
  · rw [hres0]
    simp [FetchSnapshots, hfind, hget, hhit]
  · rw [hres0]
    simp [FetchSnapshots, hfind, hget, hhit]
  · rw [hres0]
    simp [FetchSnapshots, hfind, hget, hexp, fetchFresh_backendCalled]

def snapX : ResticSnapshot :=
  ⟨"e3b0c44298fc1c149afbf4c8996fb92427ae41e4649b934ca495991b7852b855",
   "196bc576", "2025-01-28T10:30:05Z", "host", ["D:\\Fotky\\Mix"]⟩

/-- Witness for `C4_snapshot_ttl`: empty initial cache, fetch at tick 0,
re-query at 299 999 (hit) and at 300 000 (expired). -/
theorem C4_snapshot_ttl_witness :
    (findRepoIdx "repo" [] = none ∧ ([] : List SnapCacheEntry).length < MAX_REPOS ∧
     ([snapX] : List ResticSnapshot) ≠ [] ∧ 0 ≤ 299999 ∧
     299999 - 0 < SNAPSHOT_CACHE_TTL_MS ∧ 299999 < 2 ^ 64 ∧
     0 + SNAPSHOT_CACHE_TTL_MS ≤ 300000 ∧ 300000 < 2 ^ 64) ∧
    ((FetchSnapshots [] 0 "repo" (some [snapX])).backendCalled = true ∧
     (FetchSnapshots (FetchSnapshots [] 0 "repo" (some [snapX])).cache
         299999 "repo" none).snapshots
       = (FetchSnapshots [] 0 "repo" (some [snapX])).snapshots ∧
     (FetchSnapshots (FetchSnapshots [] 0 "repo" (some [snapX])).cache
         299999 "repo" none).backendCalled = false ∧
     (FetchSnapshots (FetchSnapshots [] 0 "repo" (some [snapX])).cache
         299999 "repo" none).cache
       = (FetchSnapshots [] 0 "repo" (some [snapX])).cache ∧
     (FetchSnapshots (FetchSnapshots [] 0 "repo" (some [snapX])).cache
         300000 "repo" none).backendCalled = true) :=
  ⟨⟨by decide, by decide, by decide, by decide, by decide, by decide,
    by decide, by decide⟩,
   C4_snapshot_ttl [] 0 299999 300000 "repo" [snapX] none none
     (by decide) (by decide) (by decide) (by decide) (by decide) (by decide)
     (by decide) (by decide)⟩

/-! ## Bulk ingestion (`BulkCacheSubdirectories`,
`wfx_interface.c` lines 674–804) and the directory resolver
(`GetSnapshotContents`, lines 806–955) -/

/-- `GetParentPath` (lines 674–687): everything before the last `/`;
`"/"` when there is no slash or the last slash is the first character. -/
def parentChars (cs : List Char) : List Char :=
  match cs.reverse.findIdx? (fun c => decide (c = '/')) with
  | none => ['/']
  | some k =>
    let i := cs.length - 1 - k
    if i = 0 then ['/'] else cs.take i

def GetParentPath (p : String) : String := ⟨parentChars p.data⟩

/-- The comparison relation of `CompareByParentPath` (lines 689–694):
`strcmp` of the two entries' parent paths. -/
def parentLE (a b : ResticLsEntry) : Prop :=
  strcmpLe (GetParentPath a.path) (GetParentPath b.path)

instance : DecidableRel parentLE :=
  fun a b =>
    (inferInstance :
      Decidable (strcmpLe (GetParentPath a.path) (GetParentPath b.path)))

/-- The `qsort(allEntries, ..., CompareByParentPath)` step (line 714):
sort the full listing by each entry's parent directory path (again
modelled with insertion sort; `qsort`'s order within a group of equal
parents is unspecified and never relied on). -/
def sortByParent (l : List ResticLsEntry) : List ResticLsEntry :=
  List.insertionSort parentLE l

/-- The parent paths recorded by the grouping walk (lines 721–746): one
per consecutive run of the sorted array, i.e. exactly the distinct parent
paths of the listing. -/
def bulkParents (l : List ResticLsEntry) : List String :=
  ((sortByParent l).map (fun e => GetParentPath e.path)).dedup

/-- One group of the walk: on the array sorted by parent path, the run of
entries whose parent is `p` is the sorted array filtered to `p`. -/
def groupFor (l : List ResticLsEntry) (p : String) : List ResticLsEntry :=
  (sortByParent l).filter (fun e => decide (GetParentPath e.path = p))

/-- The `ResticLsEntry` → `DirEntry` conversion of the walk
(lines 752–761): `isDirectory = (strcmp(type, "dir") == 0)`. -/
def convLsEntry (le : ResticLsEntry) : DirEntry :=
  ⟨le.name, decide (le.type = "dir"), le.sizeLow, le.sizeHigh, le.mtime⟩

/-- The empty-directory detection (lines 777–799): a `dir` entry whose
own path was not recorded as a parent of any entry (the binary search over
the sorted `parentPathList` is a membership test). -/
def leafDirs (l : List ResticLsEntry) : List ResticLsEntry :=
  (sortByParent l).filter
    (fun e => decide (e.type = "dir" ∧ e.path ∉ bulkParents l))

/-- `BulkCacheSubdirectories` (lines 698–804): store every group under
its parent path, store a zero-entry sentinel for every leaf directory, and
return the group of the requested path (empty when the requested path has
no children in the listing). -/
def BulkCacheSubdirectories (db : DbState) (repo shortId requested : String)
    (allEntries : List ResticLsEntry) : DbState × List DirEntry :=
  if allEntries = [] then (db, [])
  else
    let db1 := (bulkParents allEntries).foldl
      (fun d p => LsCache_Store d repo shortId p
        ((groupFor allEntries p).map convLsEntry)) db
    let db2 := (leafDirs allEntries).foldl
      (fun d e => LsCache_Store d repo shortId e.path []) db1
    (db2, (groupFor allEntries requested).map convLsEntry)

/-- Modelled from the spec: `LsCache_IsSnapshotLoaded` and
`LsCache_MarkSnapshotLoaded` are declared in `ls_cache.h` (lines 28–32)
and called from `wfx_interface.c`, but their implementation is not among
the sources; spec §3 *SnapshotLoadedMarker* describes them as a
per-`(repo, snapshotShortId)` flag meaning "a full recursive scan has
already been bulk-ingested for this snapshot". -/
def LsCache_IsSnapshotLoaded (loaded : List (String × String))
    (repo shortId : String) : Bool :=
  decide ((repo, shortId) ∈ loaded)

/-- Modelled from the spec: the marker-setting half of the pair above. -/
def LsCache_MarkSnapshotLoaded (loaded : List (String × String))
    (repo shortId : String) : List (String × String) :=
  (repo, shortId) :: loaded

/-! ### The in-memory tier (`g_LsCache`, lines 139–160) -/

def LS_CACHE_MAX : Nat := 32

/-- One slot of `g_LsCache`, keyed on `(shortId, path)`. -/
structure MemCacheEntry where
  shortId : String
  path : String
  entries : List DirEntry
deriving DecidableEq, Repr

/-- Insertion into `g_LsCache` (lines 855–868 and 936–951): when the
cache is full (`g_LsCacheCount >= LS_CACHE_MAX`), free slot 0 and
`memmove` the rest down (evicting the oldest entry), then append the new
entry at the end. -/
def memInsert (mem : List MemCacheEntry) (e : MemCacheEntry) :
    List MemCacheEntry :=
  (if LS_CACHE_MAX ≤ mem.length then mem.drop 1 else mem) ++ [e]

/-- The process-wide cache state of the resolver: the in-memory tier, the
persistent tier and the (spec-modelled) loaded-snapshot markers. -/
structure CacheState where
  mem : List MemCacheEntry
  db : DbState
  loaded : List (String × String)
deriving DecidableEq, Repr

def emptyCacheState : CacheState := ⟨[], emptyDb, []⟩

/-- Observables of one resolver call. -/
structure ResolveResult where
  entries : List DirEntry
  backendCalled : Bool
  state : CacheState
deriving DecidableEq, Repr

/-- The cache-decision core of `GetSnapshotContents` (lines 836–954),
entered once the virtual path has been resolved to the restic-internal
`path`; `backendListing` is the decoded `restic ls --json <shortId>`
output (`none` = restic could not run or exited nonzero).  Order of the
tiers is faithful to the source: in-memory hit; persistent hit (which
repopulates the in-memory tier; since `LsCache_Lookup` answers `(none,0)`
for empty-directory sentinels, that branch is only taken for nonempty
listings); loaded-snapshot short-circuit (no backend call); full fetch +
`BulkCacheSubdirectories` + `LsCache_MarkSnapshotLoaded`. -/
def GetSnapshotContents (st : CacheState) (repo shortId path : String)
    (backendListing : Option (List ResticLsEntry)) : ResolveResult :=
  match st.mem.find? (fun m => decide (m.shortId = shortId ∧ m.path = path)) with
  | some m => ⟨m.entries, false, st⟩
  | none =>
    match LsCache_Lookup st.db repo shortId path with
    | (some es, _) =>
      ⟨es, false, { st with mem := memInsert st.mem ⟨shortId, path, es⟩ }⟩
    | (none, _) =>
      if LsCache_IsSnapshotLoaded st.loaded repo shortId then ⟨[], false, st⟩
      else
        match backendListing with
        | none => ⟨[], true, st⟩
        | some listing =>
          if listing = [] then ⟨[], true, st⟩
          else
            let r := BulkCacheSubdirectories st.db repo shortId path listing
            let st' : CacheState :=
              ⟨st.mem, r.1, LsCache_MarkSnapshotLoaded st.loaded repo shortId⟩
            if r.2 = [] then ⟨[], true, st'⟩
            else ⟨r.2, true,
              { st' with mem := memInsert st.mem ⟨shortId, path, r.2⟩ }⟩

theorem memInsert_length_le {mem : List MemCacheEntry} (e : MemCacheEntry)
    (h : mem.length ≤ LS_CACHE_MAX) :
    (memInsert mem e).length ≤ LS_CACHE_MAX := by
  unfold memInsert LS_CACHE_MAX at *
  by_cases hc : 32 ≤ mem.length
  · rw [if_pos hc]
    simp only [List.length_append, List.length_drop, List.length_cons,
      List.length_nil]
    omega
  · rw [if_neg hc]
    simp only [List.length_append, List.length_cons, List.length_nil]
    omega

/-- **C10** — the in-memory directory-listing cache never exceeds
`LS_CACHE_MAX = 32` entries: a single insertion preserves the bound, an
insertion at capacity first evicts the entry at index 0 and appends the
new entry at the end, and every resolver call preserves the bound. -/
theorem C10_ls_cache_bound :
    (∀ (mem : List MemCacheEntry) (e : MemCacheEntry),
      mem.length ≤ LS_CACHE_MAX →
        (memInsert mem e).length ≤ LS_CACHE_MAX) ∧
    (∀ (mem : List MemCacheEntry) (e : MemCacheEntry),
      mem.length = LS_CACHE_MAX →
        memInsert mem e = mem.tail ++ [e] ∧
        (memInsert mem e).length = LS_CACHE_MAX) ∧
    (∀ (st : CacheState) (repo shortId path : String)
        (bl : Option (List ResticLsEntry)),
      st.mem.length ≤ LS_CACHE_MAX →
        (GetSnapshotContents st repo shortId path bl).state.mem.length
          ≤ LS_CACHE_MAX) := by
  refine ⟨fun mem e h => memInsert_length_le e h, ?_, ?_⟩
  · intro mem e hlen
    constructor
    · unfold memInsert
      rw [if_pos (le_of_eq hlen.symm), List.drop_one]
    · unfold memInsert
      rw [if_pos (le_of_eq hlen.symm)]
      simp only [List.length_append, List.length_drop, List.length_cons,
        List.length_nil, hlen]
      unfold LS_CACHE_MAX
      omega
  · intro st repo shortId path bl hlen
    unfold GetSnapshotContents
    split
    · exact hlen
    · split
      · exact memInsert_length_le _ hlen
      · split
        · exact hlen
        · split
          · exact hlen
          · split
            · exact hlen
            · rename_i listing hlist
              by_cases hr :
                  (BulkCacheSubdirectories st.db repo shortId path listing).2
                    = []
              · simp only [hr, if_true]
                exact hlen
              · simp only [hr, if_false]
                exact memInsert_length_le _ hlen

/-- Witness for `C10_ls_cache_bound` (its universally quantified parts
carry hypotheses): a full 32-entry cache and a resolver call on the empty
state. -/
theorem C10_ls_cache_bound_witness :
    ((List.replicate 32 (⟨"s", "/p", [entA]⟩ : MemCacheEntry)).length
        ≤ LS_CACHE_MAX ∧
     (List.replicate 32 (⟨"s", "/p", [entA]⟩ : MemCacheEntry)).length
        = LS_CACHE_MAX ∧
     emptyCacheState.mem.length ≤ LS_CACHE_MAX) ∧
    ((memInsert (List.replicate 32 ⟨"s", "/p", [entA]⟩)
        ⟨"s", "/q", [entB]⟩).length ≤ LS_CACHE_MAX ∧
     memInsert (List.replicate 32 ⟨"s", "/p", [entA]⟩) ⟨"s", "/q", [entB]⟩
        = (List.replicate 32 (⟨"s", "/p", [entA]⟩ : MemCacheEntry)).tail
            ++ [⟨"s", "/q", [entB]⟩] ∧
     (GetSnapshotContents emptyCacheState "r" "s" "/p" none).state.mem.length
        ≤ LS_CACHE_MAX) :=
  ⟨⟨by decide, by decide, by decide⟩,
   ⟨C10_ls_cache_bound.1 _ _ (by decide),
    (C10_ls_cache_bound.2.1 _ _ (by decide)).1,
    C10_ls_cache_bound.2.2 emptyCacheState "r" "s" "/p" none (by decide)⟩⟩

/-! ### Lemmas about the bulk-ingestion folds -/

theorem sentinelAt_storeFold_ne (repo shortId : String) (ps : List String)
    (G : String → List DirEntry) (db : DbState) {q : String} (hq : q ∉ ps) :
    sentinelAt (ps.foldl (fun d p => LsCache_Store d repo shortId p (G p)) db)
        repo shortId q = sentinelAt db repo shortId q := by
  induction ps generalizing db with
  | nil => rfl
  | cons p t ih =>
    have hq1 : q ≠ p := fun h => hq (h ▸ List.mem_cons_self _ _)
    have hqt : q ∉ t := fun h => hq (List.mem_cons_of_mem _ h)
    calc sentinelAt (((p :: t).foldl
            (fun d p => LsCache_Store d repo shortId p (G p)) db))
            repo shortId q
        = sentinelAt (LsCache_Store db repo shortId p (G p)) repo shortId q :=
          ih _ hqt
      _ = sentinelAt db repo shortId q :=
          sentinelAt_store_ne _ _ _ _ _ (by simp [hq1])

theorem rowsAt_storeFold_ne (repo shortId : String) (ps : List String)
    (G : String → List DirEntry) (db : DbState) {q : String} (hq : q ∉ ps) :
    rowsAt (ps.foldl (fun d p => LsCache_Store d repo shortId p (G p)) db)
        repo shortId q = rowsAt db repo shortId q := by
  induction ps generalizing db with
  | nil => rfl
  | cons p t ih =>
    have hq1 : q ≠ p := fun h => hq (h ▸ List.mem_cons_self _ _)
    have hqt : q ∉ t := fun h => hq (List.mem_cons_of_mem _ h)
    calc rowsAt (((p :: t).foldl
            (fun d p => LsCache_Store d repo shortId p (G p)) db))
            repo shortId q
        = rowsAt (LsCache_Store db repo shortId p (G p)) repo shortId q :=
          ih _ hqt
      _ = rowsAt db repo shortId q :=
          rowsAt_store_ne _ _ _ _ _ (by simp [Ne.symm hq1])

/-- After folding the per-parent stores over pairwise-distinct parents,
the rows and sentinel under a stored parent are exactly its group. -/
theorem storeFold_at_mem (repo shortId : String) (ps : List String)
    (G : String → List DirEntry) (db : DbState) {p : String}
    (hnodup : ps.Nodup) (hp : p ∈ ps)
    (hempty : rowsAt db repo shortId p = [])
    (hnd : ((G p).map (·.name)).Nodup) :
    rowsAt (ps.foldl (fun d p => LsCache_Store d repo shortId p (G p)) db)
        repo shortId p = G p ∧
    sentinelAt (ps.foldl (fun d p => LsCache_Store d repo shortId p (G p)) db)
        repo shortId p = some (G p).length := by
  induction ps generalizing db with
  | nil => simp at hp
  | cons p₀ t ih =>
    rcases List.mem_cons.1 hp with rfl | hpt
    · have hpt0 : p ∉ t := (List.nodup_cons.1 hnodup).1
      constructor
      · calc rowsAt (((p :: t).foldl
              (fun d q => LsCache_Store d repo shortId q (G q)) db))
              repo shortId p
            = rowsAt (LsCache_Store db repo shortId p (G p)) repo shortId p :=
              rowsAt_storeFold_ne repo shortId t G _ hpt0
          _ = G p := rowsAt_store_self db repo shortId p (G p) hempty hnd
      · calc sentinelAt (((p :: t).foldl
              (fun d q => LsCache_Store d repo shortId q (G q)) db))
              repo shortId p
            = sentinelAt (LsCache_Store db repo shortId p (G p))
                repo shortId p :=
              sentinelAt_storeFold_ne repo shortId t G _ hpt0
          _ = some (G p).length := sentinelAt_store_self db repo shortId p (G p)
    · have hne : p₀ ≠ p := fun h => (List.nodup_cons.1 hnodup).1 (h ▸ hpt)
      have hempty' :
          rowsAt (LsCache_Store db repo shortId p₀ (G p₀)) repo shortId p
            = [] := by
        rw [rowsAt_store_ne db repo shortId p (G p₀) (by simp [hne])]
        exact hempty
      exact ih _ (List.nodup_cons.1 hnodup).2 hpt hempty'

/-- The leaf-sentinel fold writes no child rows at all. -/
theorem rowsAt_leafFold (repo shortId : String) (ls : List ResticLsEntry)
    (db : DbState) (r s q : String) :
    rowsAt (ls.foldl (fun d e => LsCache_Store d repo shortId e.path []) db)
        r s q = rowsAt db r s q := by
  induction ls generalizing db with
  | nil => rfl
  | cons e t ih =>
    calc rowsAt (((e :: t).foldl
            (fun d e => LsCache_Store d repo shortId e.path []) db)) r s q
        = rowsAt (LsCache_Store db repo shortId e.path []) r s q := ih _
      _ = rowsAt db r s q := rfl

theorem sentinelAt_leafFold_ne (repo shortId : String)
    (ls : List ResticLsEntry) (db : DbState) {q : String}
    (hq : q ∉ ls.map (·.path)) :
    sentinelAt (ls.foldl (fun d e => LsCache_Store d repo shortId e.path []) db)
        repo shortId q = sentinelAt db repo shortId q := by
  induction ls generalizing db with
  | nil => rfl
  | cons e t ih =>
    have hq1 : q ≠ e.path := fun h => hq (by
      rw [List.map_cons]
      exact h ▸ List.mem_cons_self _ _)
    have hqt : q ∉ t.map (·.path) := fun h => hq (by
      rw [List.map_cons]
      exact List.mem_cons_of_mem _ h)
    calc sentinelAt (((e :: t).foldl
            (fun d e => LsCache_Store d repo shortId e.path []) db))
            repo shortId q
        = sentinelAt (LsCache_Store db repo shortId e.path []) repo shortId q :=
          ih _ hqt
      _ = sentinelAt db repo shortId q :=
          sentinelAt_store_ne _ _ _ _ _ (by simp [hq1])

/-- Every leaf directory ends up with a zero-entry sentinel. -/
theorem sentinelAt_leafFold_mem (repo shortId : String)
    (ls : List ResticLsEntry) (db : DbState) {q : String}
    (hq : q ∈ ls.map (·.path)) :
    sentinelAt (ls.foldl (fun d e => LsCache_Store d repo shortId e.path []) db)
        repo shortId q = some 0 := by
  induction ls generalizing db with
  | nil => simp at hq
  | cons e t ih =>
    by_cases hqt : q ∈ t.map (·.path)
    · exact ih _ hqt
    · have hqe : q = e.path := by
        rw [List.map_cons] at hq
        rcases List.mem_cons.1 hq with h | h
        · exact h
        · exact absurd h hqt
      calc sentinelAt (((e :: t).foldl
              (fun d e => LsCache_Store d repo shortId e.path []) db))
              repo shortId q
          = sentinelAt (LsCache_Store db repo shortId e.path [])
              repo shortId q := sentinelAt_leafFold_ne repo shortId t _ hqt
        _ = some 0 := by
            rw [hqe]
            exact sentinelAt_store_self db repo shortId e.path []

/-- A path is among the recorded parents exactly when it has at least one
direct child in the listing. -/
theorem groupFor_ne_nil_iff (L : List ResticLsEntry) (p : String) :
    groupFor L p ≠ [] ↔ p ∈ bulkParents L := by
  unfold groupFor bulkParents
  rw [List.mem_dedup, List.mem_map]
  constructor
  · intro h
    obtain ⟨e, he⟩ := List.exists_mem_of_ne_nil _ h
    have hm := List.mem_filter.1 he
    exact ⟨e, hm.1, by simpa using hm.2⟩
  · rintro ⟨e, he, rfl⟩
    intro hnil
    have hmem : e ∈ (sortByParent L).filter
        (fun e' => decide (GetParentPath e'.path = GetParentPath e.path)) :=
      List.mem_filter.2 ⟨he, by simp⟩
    rw [hnil] at hmem
    exact List.not_mem_nil _ hmem

/-! ### One full ingestion from the empty cache -/

/-- The first resolver call for a snapshot with nothing cached yet:
in-memory miss, persistent miss, not yet marked loaded, so the full
listing is fetched and bulk-ingested. -/
def ingestResult (repo shortId rp : String) (L : List ResticLsEntry) :
    ResolveResult :=
  GetSnapshotContents emptyCacheState repo shortId rp (some L)

theorem BulkCache_eq (repo shortId rp : String) (L : List ResticLsEntry)
    (hL : L ≠ []) :
    BulkCacheSubdirectories emptyDb repo shortId rp L
      = ((leafDirs L).foldl (fun d e => LsCache_Store d repo shortId e.path [])
           ((bulkParents L).foldl
             (fun d p => LsCache_Store d repo shortId p
               ((groupFor L p).map convLsEntry)) emptyDb),
         (groupFor L rp).map convLsEntry) := by
  unfold BulkCacheSubdirectories
  rw [if_neg hL]

theorem ingestResult_eq (repo shortId rp : String) (L : List ResticLsEntry)
    (hL : L ≠ []) :
    ingestResult repo shortId rp L
      = (if (BulkCacheSubdirectories emptyDb repo shortId rp L).2 = []
         then ⟨[], true,
               ⟨[], (BulkCacheSubdirectories emptyDb repo shortId rp L).1,
                [(repo, shortId)]⟩⟩
         else ⟨(BulkCacheSubdirectories emptyDb repo shortId rp L).2, true,
               ⟨[⟨shortId, rp,
                  (BulkCacheSubdirectories emptyDb repo shortId rp L).2⟩],
                (BulkCacheSubdirectories emptyDb repo shortId rp L).1,
                [(repo, shortId)]⟩⟩) := by
  have h0 : ingestResult repo shortId rp L
      = if L = [] then ⟨[], true, emptyCacheState⟩
        else (if (BulkCacheSubdirectories emptyDb repo shortId rp L).2 = []
              then ⟨[], true,
                    ⟨[], (BulkCacheSubdirectories emptyDb repo shortId rp L).1,
                     [(repo, shortId)]⟩⟩
              else ⟨(BulkCacheSubdirectories emptyDb repo shortId rp L).2, true,
                    ⟨[⟨shortId, rp,
                       (BulkCacheSubdirectories emptyDb repo shortId rp L).2⟩],
                     (BulkCacheSubdirectories emptyDb repo shortId rp L).1,
                     [(repo, shortId)]⟩⟩) := rfl
  rw [h0, if_neg hL]

theorem ingest_state_db (repo shortId rp : String) (L : List ResticLsEntry)
    (hL : L ≠ []) :
    (ingestResult repo shortId rp L).state.db
      = (BulkCacheSubdirectories emptyDb repo shortId rp L).1 := by
  rw [ingestResult_eq repo shortId rp L hL]
  by_cases hc : (BulkCacheSubdirectories emptyDb repo shortId rp L).2 = []
  · rw [if_pos hc]
  · rw [if_neg hc]

theorem ingest_state_loaded (repo shortId rp : String)
    (L : List ResticLsEntry) (hL : L ≠ []) :
    (ingestResult repo shortId rp L).state.loaded = [(repo, shortId)] := by
  rw [ingestResult_eq repo shortId rp L hL]
  by_cases hc : (BulkCacheSubdirectories emptyDb repo shortId rp L).2 = []
  · rw [if_pos hc]
  · rw [if_neg hc]

theorem ingest_state_mem (repo shortId rp : String) (L : List ResticLsEntry)
    (hL : L ≠ []) :
    (ingestResult repo shortId rp L).state.mem
      = (if (BulkCacheSubdirectories emptyDb repo shortId rp L).2 = []
         then []
         else [⟨shortId, rp,
                (BulkCacheSubdirectories emptyDb repo shortId rp L).2⟩]) := by
  rw [ingestResult_eq repo shortId rp L hL]
  by_cases hc : (BulkCacheSubdirectories emptyDb repo shortId rp L).2 = []
  · rw [if_pos hc, if_pos hc]
  · rw [if_neg hc, if_neg hc]

/-- **C2** — after one full ingestion of a snapshot's recursive listing
from the empty cache state (listing nonempty, child names within each
directory distinct):
1. every directory with at least one child in the listing is cached under
   its path with exactly its direct children (up to order, as the
   persistent tier stores rows keyed by name);
2. every `dir` entry with zero children is cached as a known-empty
   sentinel (`entry_count = 0`);
3. the snapshot is marked fully loaded;
4. a subsequent resolver request for any path of that snapshot absent
   from the listing is answered as nonexistent (empty, unchanged state)
   without a backend call. -/
theorem C2_bulk_ingest_completeness (repo shortId rp : String)
    (L : List ResticLsEntry) (hL : L ≠ [])
    (hnd : ∀ p ∈ bulkParents L, ((groupFor L p).map (·.name)).Nodup) :
    (∀ p ∈ bulkParents L,
      LsCache_Lookup (ingestResult repo shortId rp L).state.db repo shortId p
        = (some ((groupFor L p).map convLsEntry),
            ((groupFor L p).map convLsEntry).length) ∧
      ((groupFor L p).map convLsEntry).Perm
        ((L.filter fun e => decide (GetParentPath e.path = p)).map
          convLsEntry) ∧
      (groupFor L p).map convLsEntry ≠ []) ∧
    (∀ e ∈ L, e.type = "dir" → e.path ∉ bulkParents L →
      sentinelAt (ingestResult repo shortId rp L).state.db repo shortId e.path
        = some 0) ∧
    LsCache_IsSnapshotLoaded (ingestResult repo shortId rp L).state.loaded
        repo shortId = true ∧
    (∀ q, q ∉ bulkParents L → q ∉ L.map (·.path) →
      ∀ b', GetSnapshotContents (ingestResult repo shortId rp L).state
          repo shortId q b'
        = ⟨[], false, (ingestResult repo shortId rp L).state⟩) := by
  have hdb := ingest_state_db repo shortId rp L hL
  have hloaded := ingest_state_loaded repo shortId rp L hL
  have hmem := ingest_state_mem repo shortId rp L hL
  have hB := BulkCache_eq repo shortId rp L hL
  rw [hB] at hdb hmem
  simp only [] at hdb hmem
  -- the two fold stages
  set db1 := (bulkParents L).foldl
    (fun d p => LsCache_Store d repo shortId p
      ((groupFor L p).map convLsEntry)) emptyDb with hdb1
  set db2 := (leafDirs L).foldl
    (fun d e => LsCache_Store d repo shortId e.path []) db1 with hdb2
  -- names within each stored group are distinct
  have hGnd : ∀ p ∈ bulkParents L,
      (((groupFor L p).map convLsEntry).map (·.name)).Nodup := by
    intro p hp
    rw [List.map_map]
    have heq : (groupFor L p).map ((·.name) ∘ convLsEntry)
        = (groupFor L p).map (·.name) :=
      List.map_congr_left (fun e _ => rfl)
    rw [heq]
    exact hnd p hp
  -- leaf paths avoid the parents, and are paths of the listing
  have hleaf_not_parent : ∀ x ∈ (leafDirs L).map (·.path),
      x ∉ bulkParents L := by
    intro x hx
    obtain ⟨e, he, rfl⟩ := List.mem_map.1 hx
    have := (List.mem_filter.1 he).2
    simp only [decide_eq_true_eq] at this
    exact this.2
  have hleaf_path : ∀ x ∈ (leafDirs L).map (·.path), x ∈ L.map (·.path) := by
    intro x hx
    obtain ⟨e, he, rfl⟩ := List.mem_map.1 hx
    have hs : e ∈ sortByParent L := (List.mem_filter.1 he).1
    have hL' : e ∈ L := (List.perm_insertionSort parentLE L).mem_iff.1 hs
    exact List.mem_map_of_mem _ hL'
  -- rows and sentinels under each parent after both folds
  have hparent : ∀ p ∈ bulkParents L,
      rowsAt db2 repo shortId p = (groupFor L p).map convLsEntry ∧
      sentinelAt db2 repo shortId p
        = some ((groupFor L p).map convLsEntry).length := by
    intro p hp
    have h1 := storeFold_at_mem repo shortId (bulkParents L)
      (fun p => (groupFor L p).map convLsEntry) emptyDb
      (List.nodup_dedup _) hp rfl (hGnd p hp)
    have hpleaf : p ∉ (leafDirs L).map (·.path) := by
      intro hmem'
      exact hleaf_not_parent p hmem' hp
    constructor
    · rw [hdb2, rowsAt_leafFold]
      exact h1.1
    · rw [hdb2, sentinelAt_leafFold_ne repo shortId _ _ hpleaf]
      exact h1.2
  refine ⟨?_, ?_, ?_, ?_⟩
  · -- 1: nonempty-hit with exactly the group
    intro p hp
    have hGne : (groupFor L p).map convLsEntry ≠ [] := by
      intro h
      exact (groupFor_ne_nil_iff L p).2 hp (List.map_eq_nil_iff.1 h)
    refine ⟨?_, ?_, hGne⟩
    · rw [hdb]
      have hrows := (hparent p hp).1
      have hsent := (hparent p hp).2
      have hlen0 : ((groupFor L p).map convLsEntry).length ≠ 0 :=
        fun h => hGne (List.length_eq_zero.1 h)
      have hie : ((groupFor L p).map convLsEntry).isEmpty = false := by
        cases hgp : (groupFor L p).map convLsEntry with
        | nil => exact absurd hgp hGne
        | cons a t => rfl
      simp only [LsCache_Lookup, hsent, hrows, hlen0, if_false,
        List.take_length, hie, Bool.false_eq_true]
    · exact List.Perm.map _ ((List.perm_insertionSort parentLE L).filter _)
  · -- 2: known-empty sentinel for childless dirs
    intro e he htype hnp
    rw [hdb, hdb2]
    apply sentinelAt_leafFold_mem
    have hs : e ∈ sortByParent L :=
      (List.perm_insertionSort parentLE L).mem_iff.2 he
    have hlf : e ∈ leafDirs L := by
      refine List.mem_filter.2 ⟨hs, ?_⟩
      simp only [decide_eq_true_eq]
      exact ⟨htype, hnp⟩
    exact List.mem_map_of_mem _ hlf
  · -- 3: marked loaded
    rw [hloaded]
    simp [LsCache_IsSnapshotLoaded]
  · -- 4: absent path answered without a backend call
    intro q hqpar hqpath b'
    have hsentq : sentinelAt db2 repo shortId q = none := by
      have hqleaf : q ∉ (leafDirs L).map (·.path) :=
        fun h => hqpath (hleaf_path q h)
      rw [hdb2, sentinelAt_leafFold_ne repo shortId _ _ hqleaf, hdb1,
        sentinelAt_storeFold_ne repo shortId _ _ _ hqpar]
      rfl
    have hlookupq : LsCache_Lookup (ingestResult repo shortId rp L).state.db
        repo shortId q = (none, 0) := by
      rw [hdb]
      simp only [LsCache_Lookup, hsentq]
    have hfindq : (ingestResult repo shortId rp L).state.mem.find?
        (fun m => decide (m.shortId = shortId ∧ m.path = q)) = none := by
      rw [hmem]
      by_cases hc : (groupFor L rp).map convLsEntry = []
      · rw [if_pos hc]
        rfl
      · rw [if_neg hc]
        have hrp : rp ∈ bulkParents L := by
          apply (groupFor_ne_nil_iff L rp).1
          intro hgr
          exact hc (by rw [hgr]; rfl)
        have hqrp : rp ≠ q := fun h => hqpar (h ▸ hrp)
        simp [List.find?, hqrp]
    have hload2 : LsCache_IsSnapshotLoaded
        (ingestResult repo shortId rp L).state.loaded repo shortId = true := by
      rw [hloaded]
      simp [LsCache_IsSnapshotLoaded]
    simp only [GetSnapshotContents, hfindq, hlookupq, hload2, if_true]

/-! Concrete listing for the bulk-ingestion witness: directory `D1` with
a file and a subdirectory `D2`, and an empty directory `D3` (the spec's
own test vector). -/

def lsD1 : ResticLsEntry := ⟨"D1", "/D1", "dir", 0, 0, "2025-01-01T00:00:00Z"⟩

def lsF1 : ResticLsEntry :=
  ⟨"f.txt", "/D1/f.txt", "file", 7, 0, "2025-01-01T00:00:01Z"⟩

def lsD2 : ResticLsEntry := ⟨"D2", "/D1/D2", "dir", 0, 0, "2025-01-01T00:00:02Z"⟩

def lsD3 : ResticLsEntry := ⟨"D3", "/D3", "dir", 0, 0, "2025-01-01T00:00:03Z"⟩

def demoListing : List ResticLsEntry := [lsD1, lsF1, lsD2, lsD3]

/-- Witness for `C2_bulk_ingest_completeness` on `demoListing`. -/
theorem C2_bulk_ingest_completeness_witness :
    (demoListing ≠ [] ∧
     (∀ p ∈ bulkParents demoListing,
       ((groupFor demoListing p).map (·.name)).Nodup)) ∧
    ((∀ p ∈ bulkParents demoListing,
      LsCache_Lookup (ingestResult "repo" "196bc576" "/D1" demoListing).state.db
          "repo" "196bc576" p
        = (some ((groupFor demoListing p).map convLsEntry),
            ((groupFor demoListing p).map convLsEntry).length) ∧
      ((groupFor demoListing p).map convLsEntry).Perm
        ((demoListing.filter fun e => decide (GetParentPath e.path = p)).map
          convLsEntry) ∧
      (groupFor demoListing p).map convLsEntry ≠ []) ∧
    (∀ e ∈ demoListing, e.type = "dir" → e.path ∉ bulkParents demoListing →
      sentinelAt (ingestResult "repo" "196bc576" "/D1" demoListing).state.db
          "repo" "196bc576" e.path = some 0) ∧
    LsCache_IsSnapshotLoaded
        (ingestResult "repo" "196bc576" "/D1" demoListing).state.loaded
        "repo" "196bc576" = true ∧
    (∀ q, q ∉ bulkParents demoListing → q ∉ demoListing.map (·.path) →
      ∀ b', GetSnapshotContents
          (ingestResult "repo" "196bc576" "/D1" demoListing).state
          "repo" "196bc576" q b'
        = ⟨[], false,
           (ingestResult "repo" "196bc576" "/D1" demoListing).state⟩)) :=
  ⟨⟨by decide, by decide⟩,
   C2_bulk_ingest_completeness "repo" "196bc576" "/D1" demoListing
     (by decide) (by decide)⟩

/-! ## The merged "all files" view (`GetAllFilesContents`,
`wfx_interface.c` lines 56–59, 531–540 and 957–1039) -/

/-- The fixed version marker (`VERSION_PREFIX`, 11 bytes). -/
def VERSION_PREFIX : String := "[versions] "

/-- `HasVersionPrefix`: `strncmp(name, VERSION_PREFIX, 11) == 0`. -/
def HasVersionPrefix (name : String) : Bool :=
  VERSION_PREFIX.data.isPrefixOf name.data

/-- `StripVersionPrefix`: drop the marker when present. -/
def StripVersionPrefix (name : String) : String :=
  if HasVersionPrefix name then ⟨name.data.drop VERSION_PREFIX.data.length⟩
  else name

/-- The entry a source entry contributes to the merged listing
(lines 1016–1029): directories keep their name (size zeroed by
`AddEntry(baseName, TRUE, 0, 0, ...)`); files get the version marker
prefixed, are marked as directories, and keep their size and time. -/
def convMergedEntry (e : DirEntry) : DirEntry :=
  if e.isDirectory then ⟨e.name, true, 0, 0, e.mtime⟩
  else ⟨VERSION_PREFIX ++ e.name, true, e.fileSizeLow, e.fileSizeHigh, e.mtime⟩

/-- The merge of one source entry into the accumulated result
(lines 1002–1031): skip when an existing merged entry's stripped base
name equals the new entry's name, otherwise append its converted form. -/
def mergeEntry (acc : List DirEntry) (e : DirEntry) : List DirEntry :=
  if acc.any (fun x => decide (StripVersionPrefix x.name = e.name)) then acc
  else acc ++ [convMergedEntry e]

/-- `GetAllFilesContents` after path matching: the per-snapshot listings
of the snapshots that match the sanitized path, in the newest-first order
`FetchSnapshots` returns them (skipped or failed snapshots contribute
`[]`), merged left to right. -/
def GetAllFilesContents (perSnapshotListings : List (List DirEntry)) :
    List DirEntry :=
  perSnapshotListings.foldl (fun acc l => l.foldl mergeEntry acc) []

/-- The merged entry carrying a given base name (the duplicate check of
the merge loop, reused as an observer). -/
def lookupBase (b : String) (l : List DirEntry) : Option DirEntry :=
  l.find? (fun x => decide (StripVersionPrefix x.name = b))

theorem convMergedEntry_isDir (e : DirEntry) :
    (convMergedEntry e).isDirectory = true := by
  unfold convMergedEntry
  by_cases hd : e.isDirectory <;> simp [hd]

theorem stripVersionPrefix_conv (e : DirEntry)
    (h : HasVersionPrefix e.name = false) :
    StripVersionPrefix (convMergedEntry e).name = e.name := by
  by_cases hd : e.isDirectory
  · have hc : convMergedEntry e = ⟨e.name, true, 0, 0, e.mtime⟩ := by
      unfold convMergedEntry
      rw [if_pos hd]
    rw [hc]
    show StripVersionPrefix e.name = e.name
    unfold StripVersionPrefix
    rw [if_neg (by simp [h])]
  · have hc : convMergedEntry e
        = ⟨VERSION_PREFIX ++ e.name, true, e.fileSizeLow, e.fileSizeHigh,
           e.mtime⟩ := by
      unfold convMergedEntry
      rw [if_neg hd]
    rw [hc]
    show StripVersionPrefix (VERSION_PREFIX ++ e.name) = e.name
    unfold StripVersionPrefix
    have hpre : HasVersionPrefix (VERSION_PREFIX ++ e.name) = true := by
      unfold HasVersionPrefix
      rw [String.data_append, List.isPrefixOf_iff_prefix]
      exact List.prefix_append _ _
    rw [if_pos hpre]
    show (⟨(VERSION_PREFIX ++ e.name).data.drop VERSION_PREFIX.data.length⟩
        : String) = e.name
    rw [String.data_append, List.drop_left]

theorem orElse_thunk_none {α : Type} (x : Option α) :
    (x.orElse fun _ => none) = x := by
  cases x <;> rfl

theorem find?_append_eq {α : Type} (p : α → Bool) (l₁ l₂ : List α) :
    (l₁ ++ l₂).find? p = ((l₁.find? p).orElse fun _ => l₂.find? p) := by
  induction l₁ with
  | nil => rfl
  | cons a t ih =>
    by_cases hp : p a
    · simp [List.find?_cons, hp, Option.orElse]
    · simp [List.find?_cons, hp, ih]

/-- One merge step, observed through `lookupBase`: an already-present
base name wins, otherwise the new entry (converted) is the one found. -/
theorem lookupBase_mergeEntry (acc : List DirEntry) (e : DirEntry)
    (b : String) (h : HasVersionPrefix e.name = false) :
    lookupBase b (mergeEntry acc e)
      = ((lookupBase b acc).orElse fun _ =>
          if e.name = b then some (convMergedEntry e) else none) := by
  unfold mergeEntry
  by_cases hany : acc.any (fun x => decide (StripVersionPrefix x.name = e.name))
  · rw [if_pos hany]
    by_cases heb : e.name = b
    · subst heb
      obtain ⟨x, hx, hpx⟩ := List.any_eq_true.1 hany
      have hsome : lookupBase e.name acc ≠ none := by
        intro hnone
        have := List.find?_eq_none.1 hnone x hx
        exact this hpx
      obtain ⟨v, hv⟩ := Option.ne_none_iff_exists'.1 hsome
      rw [hv]
      rfl
    · rw [if_neg heb]
      exact (orElse_thunk_none _).symm
  · rw [if_neg hany]
    unfold lookupBase
    rw [find?_append_eq]
    have hsing : ([convMergedEntry e].find?
        fun x => decide (StripVersionPrefix x.name = b))
        = if e.name = b then some (convMergedEntry e) else none := by
      rw [List.find?_cons, stripVersionPrefix_conv e h]
      by_cases heb : e.name = b
      · simp [heb]
      · simp [heb]
    rw [hsing]

/-- One snapshot's listing merged in, observed through `lookupBase`. -/
theorem lookupBase_mergeFold (l : List DirEntry) (acc : List DirEntry)
    (b : String) (h : ∀ e ∈ l, HasVersionPrefix e.name = false) :
    lookupBase b (l.foldl mergeEntry acc)
      = ((lookupBase b acc).orElse fun _ =>
          (l.find? (fun e => decide (e.name = b))).map convMergedEntry) := by
  induction l generalizing acc with
  | nil => exact (orElse_thunk_none _).symm
  | cons e t ih =>
    have he : HasVersionPrefix e.name = false := h e (List.mem_cons_self _ _)
    have ht : ∀ e' ∈ t, HasVersionPrefix e'.name = false :=
      fun e' he' => h e' (List.mem_cons_of_mem _ he')
    calc lookupBase b ((e :: t).foldl mergeEntry acc)
        = lookupBase b (t.foldl mergeEntry (mergeEntry acc e)) := rfl
      _ = ((lookupBase b (mergeEntry acc e)).orElse fun _ =>
            (t.find? (fun e => decide (e.name = b))).map convMergedEntry) :=
          ih _ ht
      _ = ((lookupBase b acc).orElse fun _ =>
            ((e :: t).find? (fun e => decide (e.name = b))).map
              convMergedEntry) := by
          rw [lookupBase_mergeEntry acc e b he, List.find?_cons]
          by_cases heb : e.name = b <;>
            cases hacc : lookupBase b acc <;>
              simp [Option.orElse, heb]

/-- **C5** — merged "all files" precedence: for every base name, the
merged listing's entry for that name is the converted form of the *first*
entry carrying that name in the concatenation of the per-snapshot
listings (which are visited newest-first, see `C8`): the newest snapshot
containing a name supplies the single merged entry and its metadata.
`convMergedEntry` merges directories unchanged in name and kind, while a
file's merged entry has kind Directory and name
`VERSION_PREFIX ++ original name`.  Every merged entry has kind
Directory.  (Hypothesis: no source name already carries the version
marker, which is what makes the base-name comparison faithful.) -/
theorem C5_merged_view_precedence (lists : List (List DirEntry))
    (h : ∀ l ∈ lists, ∀ e ∈ l, HasVersionPrefix e.name = false) :
    (∀ b, lookupBase b (GetAllFilesContents lists)
      = (lists.flatten.find? (fun e => decide (e.name = b))).map
          convMergedEntry) ∧
    (∀ e ∈ GetAllFilesContents lists, e.isDirectory = true) ∧
    (∀ e : DirEntry, (e.isDirectory = true →
        convMergedEntry e = ⟨e.name, true, 0, 0, e.mtime⟩) ∧
      (e.isDirectory = false →
        convMergedEntry e
          = ⟨VERSION_PREFIX ++ e.name, true, e.fileSizeLow, e.fileSizeHigh,
             e.mtime⟩)) := by
  refine ⟨?_, ?_, ?_⟩
  · intro b
    have main : ∀ (ls : List (List DirEntry)) (acc : List DirEntry),
        (∀ l ∈ ls, ∀ e ∈ l, HasVersionPrefix e.name = false) →
        lookupBase b (ls.foldl (fun acc l => l.foldl mergeEntry acc) acc)
          = ((lookupBase b acc).orElse fun _ =>
              (ls.flatten.find? (fun e => decide (e.name = b))).map
                convMergedEntry) := by
      intro ls
      induction ls with
      | nil =>
        intro acc _
        exact (orElse_thunk_none _).symm
      | cons l t ih =>
        intro acc hls
        have hl : ∀ e ∈ l, HasVersionPrefix e.name = false :=
          hls l (List.mem_cons_self _ _)
        have ht : ∀ l' ∈ t, ∀ e ∈ l', HasVersionPrefix e.name = false :=
          fun l' hl' => hls l' (List.mem_cons_of_mem _ hl')
        calc lookupBase b
              ((l :: t).foldl (fun acc l => l.foldl mergeEntry acc) acc)
            = lookupBase b
                (t.foldl (fun acc l => l.foldl mergeEntry acc)
                  (l.foldl mergeEntry acc)) := rfl
          _ = ((lookupBase b (l.foldl mergeEntry acc)).orElse fun _ =>
                (t.flatten.find? (fun e => decide (e.name = b))).map
                  convMergedEntry) := ih _ ht
          _ = ((lookupBase b acc).orElse fun _ =>
                ((l :: t).flatten.find?
                  (fun e => decide (e.name = b))).map convMergedEntry) := by
              rw [lookupBase_mergeFold l acc b hl]
              rw [show (l :: t).flatten = l ++ t.flatten from rfl,
                find?_append_eq]
              cases hacc : lookupBase b acc <;>
                cases hfl : l.find? (fun e => decide (e.name = b)) <;>
                  simp [Option.orElse]
    exact main lists [] h
  · have main : ∀ (ls : List (List DirEntry)) (acc : List DirEntry),
        (∀ e ∈ acc, e.isDirectory = true) →
        ∀ e ∈ ls.foldl (fun acc l => l.foldl mergeEntry acc) acc,
          e.isDirectory = true := by
      intro ls
      induction ls with
      | nil => exact fun acc hacc => hacc
      | cons l t ih =>
        intro acc hacc
        refine ih _ ?_
        have inner : ∀ (l' : List DirEntry) (acc' : List DirEntry),
            (∀ e ∈ acc', e.isDirectory = true) →
            ∀ e ∈ l'.foldl mergeEntry acc', e.isDirectory = true := by
          intro l'
          induction l' with
          | nil => exact fun acc' h' => h'
          | cons x xs ihx =>
            intro acc' h'
            refine ihx _ ?_
            intro e he
            unfold mergeEntry at he
            by_cases hany : acc'.any
                (fun y => decide (StripVersionPrefix y.name = x.name))
            · rw [if_pos hany] at he
              exact h' e he
            · rw [if_neg hany] at he
              rcases List.mem_append.1 he with h1 | h1
              · exact h' e h1
              · rw [List.mem_singleton.1 h1]
                exact convMergedEntry_isDir x
        exact inner l acc hacc
    exact main lists [] (fun e he => absurd he (List.not_mem_nil e))
  · intro e
    constructor
    · intro hd
      simp [convMergedEntry, hd]
    · intro hd
      simp [convMergedEntry, hd]

def fileReportA : DirEntry :=
  ⟨"report.docx", false, 100, 0, "2025-02-01T00:00:00Z"⟩

def fileReportB : DirEntry :=
  ⟨"report.docx", false, 90, 0, "2025-01-01T00:00:00Z"⟩

def dirArchiveB : DirEntry :=
  ⟨"archive", true, 0, 0, "2025-01-02T00:00:00Z"⟩

/-- Witness for `C5_merged_view_precedence` on the spec's own example:
snapshot A (newest) has file `report.docx`; snapshot B (older) has file
`report.docx` and directory `archive`.  The merged view is exactly the
version placeholder for `report.docx` with A's metadata, then `archive`
from B. -/
theorem C5_merged_view_precedence_witness :
    ((∀ l ∈ [[fileReportA], [fileReportB, dirArchiveB]],
        ∀ e ∈ l, HasVersionPrefix e.name = false) ∧
     GetAllFilesContents [[fileReportA], [fileReportB, dirArchiveB]]
       = [⟨"[versions] report.docx", true, 100, 0, "2025-02-01T00:00:00Z"⟩,
          ⟨"archive", true, 0, 0, "2025-01-02T00:00:00Z"⟩]) ∧
    ((∀ b, lookupBase b
        (GetAllFilesContents [[fileReportA], [fileReportB, dirArchiveB]])
      = (([[fileReportA], [fileReportB, dirArchiveB]] :
            List (List DirEntry)).flatten.find?
          (fun e => decide (e.name = b))).map convMergedEntry) ∧
     (∀ e ∈ GetAllFilesContents [[fileReportA], [fileReportB, dirArchiveB]],
        e.isDirectory = true) ∧
     (∀ e : DirEntry, (e.isDirectory = true →
         convMergedEntry e = ⟨e.name, true, 0, 0, e.mtime⟩) ∧
       (e.isDirectory = false →
         convMergedEntry e
           = ⟨VERSION_PREFIX ++ e.name, true, e.fileSizeLow, e.fileSizeHigh,
              e.mtime⟩))) :=
  ⟨⟨by decide, by decide⟩,
   C5_merged_view_precedence [[fileReportA], [fileReportB, dirArchiveB]]
     (by decide)⟩

end ResticWfx
